import Mathlib

/-!
# Fragment plans example (`examples/fragment-plans/main.js`)

A shallow embedding of `loadFragments`, `toggleEdges` and the two kinds of
button handler of the example, followed by the properties proved about them.

Modelling conventions.

* A JavaScript string is a Lean `String`; `includes`, `indexOf` and
  `substring` are written on the character lists.  The only pattern searched
  for is the ASCII text `.glb`, for which positions counted in characters and
  in UTF-16 code units cut a name at the same place.
* The values in the archive have the types of the toolchain that produced
  it: express ids and type ids are natural numbers, which JavaScript writes in
  decimal when it uses one as a property key; type names and level names are
  strings; elevations are numbers.  `model-types.json` maps express ids to
  type ids and `all-types.json` maps type ids to type names; both are given by
  their keys, which are strings, so that a lookup with `undefined` reads the
  key `undefined` as it does in JavaScript.
* What may be absent is modelled: an entry may be missing, or hold text that
  is not JSON; a table may be `null`; the metadata of a fragment may have no
  `ids`; `levels-properties.json` may hold a value that cannot be iterated,
  and an element of it may lack `Elevation` or `Name`.  Each of these makes
  `loadFragments` throw at the line that needs the absent value.
* Calls into the viewer library and the DOM are recorded, in order, as steps;
  they are taken to return, and to change neither the background of the scene
  nor the parent of an edge object other than as `scene.add` and
  `removeFromParent` do.  The page has the element `plan-container`, and
  `fragments.edges.edgesList` holds the lines returned by
  `fragments.edges.generate`.
* A JavaScript number is a finite binary value `m * 2 ^ e` or one of the
  special values; addition rounds to the nearest binary64 value, ties to even.
-/

namespace FragmentPlans

/-! ## Strings -/

/-- Position of the first occurrence of `pat` in `s`, when there is one. -/
def indexOfChars (pat : List Char) : List Char → Option Nat
  | [] => if pat.isPrefixOf [] then some 0 else none
  | c :: cs =>
    if pat.isPrefixOf (c :: cs) then some 0
    else (indexOfChars pat cs).map (· + 1)

/-- `s.indexOf(pat)`: the first position of `pat` in `s`, or `-1`. -/
def indexOf (s pat : String) : Int :=
  match indexOfChars pat.data s.data with
  | some i => (i : Int)
  | none => -1

/-- `s.includes(pat)`: whether `pat` occurs in `s`. -/
def includes (s pat : String) : Bool :=
  (indexOfChars pat.data s.data).isSome

/-- `s.substring(start, end)`: both arguments are clamped to `[0, length]`
and swapped when `start` is the larger. -/
def substring (s : String) (start stop : Int) : String :=
  let len : Int := s.data.length
  let a := min (max start 0) len
  let b := min (max stop 0) len
  let lo := (min a b).toNat
  let hi := (max a b).toNat
  String.mk ((s.data.drop lo).take (hi - lo))

/-- Line 99: the name of the metadata entry paired with a geometry entry. -/
def dataName (geometryName : String) : String :=
  substring geometryName 0 (indexOf geometryName ".glb") ++ ".json"

/-! ## Numbers -/

/-- A JavaScript number: `finite m e` is the value `m * 2 ^ e`. -/
inductive JSNumber
  | finite (m : Int) (e : Int)
  | posInfinity
  | negInfinity
  | NaN
  deriving DecidableEq, Repr

/-- Number of binary digits of `n`, by halving at most `fuel` times. -/
def bitLengthAux : Nat → Nat → Nat
  | 0, _ => 0
  | fuel + 1, n => if n = 0 then 0 else bitLengthAux fuel (n / 2) + 1

/-- Number of binary digits of `n` (`0` for `0`). -/
def bitLength (n : Nat) : Nat := bitLengthAux n n

/-- The integer nearest to `m / 2 ^ k`, the even one of two equally near. -/
def roundShift (m : Int) (k : Nat) : Int :=
  let q := m / 2 ^ k
  let r := m % 2 ^ k
  if 2 * r < 2 ^ k then q
  else if 2 ^ k < 2 * r then q + 1
  else if q % 2 = 0 then q else q + 1

/-- The binary64 value nearest to `m * 2 ^ e`: at most 53 significant bits,
no bit below `2 ^ (-1074)`, and an infinity from `2 ^ 1024` on. -/
def roundDouble (m e : Int) : JSNumber :=
  let k := max (bitLength m.natAbs - 53) (-1074 - e).toNat
  let m' := roundShift m k
  let e' := e + k
  if 1024 < (bitLength m'.natAbs : Int) + e' then
    if 0 < m' then .posInfinity else .negInfinity
  else .finite m' e'

/-- The `+` of two numbers. -/
def JSNumber.add : JSNumber → JSNumber → JSNumber
  | .NaN, _ => .NaN
  | _, .NaN => .NaN
  | .posInfinity, .negInfinity => .NaN
  | .negInfinity, .posInfinity => .NaN
  | .posInfinity, _ => .posInfinity
  | _, .posInfinity => .posInfinity
  | .negInfinity, _ => .negInfinity
  | _, .negInfinity => .negInfinity
  | .finite m₁ e₁, .finite m₂ e₂ =>
    let e := min e₁ e₂
    roundDouble (m₁ * 2 ^ (e₁ - e).toNat + m₂ * 2 ^ (e₂ - e).toNat) e

/-- The `<` of two numbers. -/
def JSNumber.lt : JSNumber → JSNumber → Bool
  | .NaN, _ => false
  | _, .NaN => false
  | .finite m₁ e₁, .finite m₂ e₂ =>
    let e := min e₁ e₂
    decide (m₁ * 2 ^ (e₁ - e).toNat < m₂ * 2 ^ (e₂ - e).toNat)
  | .finite _ _, .posInfinity => true
  | .finite _ _, .negInfinity => false
  | .posInfinity, _ => false
  | .negInfinity, .negInfinity => false
  | .negInfinity, _ => true

/-- The rational value of a finite number (`0` for the special values). -/
def JSNumber.toRat : JSNumber → ℚ
  | .finite m e => (m : ℚ) * (2 : ℚ) ^ e
  | _ => 0

/-- Whether the number is finite. -/
def JSNumber.isFinite : JSNumber → Bool
  | .finite _ _ => true
  | _ => false

/-- Line 142: `levelOffset = 1.5`. -/
def levelOffset : JSNumber := .finite 3 (-1)

/-- A `THREE.Vector3`. -/
structure Vector3 where
  x : JSNumber
  y : JSNumber
  z : JSNumber
  deriving DecidableEq, Repr

/-! ## The archive -/

/-- What `entries[name]` holds for a JSON document of type `α`. -/
inductive Doc (α : Type)
  | missing
  | malformed
  | parsed (value : α)
  deriving DecidableEq, Repr

/-- One element of `levels-properties.json` that has `Elevation` and `Name`;
the two fields stand for `Name.value` and `Elevation.value`. -/
structure LevelProps where
  expressID : Nat
  Name : String
  Elevation : JSNumber
  deriving DecidableEq, Repr

/-- An element of `levels-properties.json` as the loop over the levels meets
it. -/
inductive LevelEntry
  /-- An element with `Elevation` and `Name`. -/
  | level (levelProps : LevelProps)
  /-- An element without `Elevation`: `levelProps.Elevation.value` throws
  (line 145). -/
  | noElevation
  /-- An element with `Elevation` and without `Name`: `levelProps.Name.value`
  throws (line 153). -/
  | noName
  deriving DecidableEq, Repr

/-- The entries of the unzipped archive as `loadFragments` reads them.  A
table is given by its keys, which are strings, and their values; of two pairs
with the same key the first is the one the table holds. -/
structure Archive where
  /-- `Object.keys(entries)`, in listing order. -/
  fileNames : List String
  /-- `entries['model-types.json']`: express id to type id; `none` when the
  document is `null`. -/
  modelTypes : Doc (Option (List (String × Nat)))
  /-- `entries['all-types.json']`: type id to type name; `none` when the
  document is `null`. -/
  allTypes : Doc (Option (List (String × String)))
  /-- `entries['levels-properties.json']`; `none` when the document cannot be
  iterated. -/
  levelsProperties : Doc (Option (List LevelEntry))
  /-- `entries[dataName]` for a fragment: the array `ids` of its metadata;
  `none` when the metadata has no `ids`. -/
  fragmentData : String → Doc (Option (List Nat))

/-- What ends `loadFragments` early. -/
inductive Error
  /-- `entries[name]` is `undefined`, so the method call on it throws. -/
  | typeError (name : String)
  /-- `entries[name].json()` rejects: the text is not JSON. -/
  | syntaxError (name : String)
  /-- A property is read from `undefined` or `null`, or a value that cannot
  be iterated is iterated; `what` names the expression that had no value. -/
  | undefinedAccess (what : String)
  deriving DecidableEq, Repr

/-! ## Steps of the load sequence -/

/-- Objects of the scene graph. -/
inductive Object3D
  | directionalLight
  | ambientLight
  | lines (fragment : Nat)
  deriving DecidableEq, Repr

/-- A `LineMaterial`; the line width is in thousandths. -/
structure LineMaterial where
  color : Nat
  linewidth : Nat
  deriving DecidableEq, Repr

/-- The argument of `floorNav.create`. -/
structure PlanConfig where
  id : Nat
  ortho : Bool
  normal : Vector3
  point : Vector3
  name : String
  rotation : JSNumber
  deriving DecidableEq, Repr

/-- The two kinds of `onclick` closure; a level closure captures its own
`levelProps`. -/
inductive Handler
  | level (levelProps : LevelProps)
  | exit
  deriving DecidableEq, Repr

/-- The steps of `loadFragments` that the properties speak of, in the order
of the statements that make them.  A fragment, its mesh and its edge lines are
named by the number of fragments loaded before it. -/
inductive Step
  /-- `entries[name].json()` is called (lines 80, 81, 101, 139). -/
  | json (name : String)
  /-- `entries[name].blob()` is called (lines 96, 100). -/
  | blob (name : String)
  /-- `fragments.load(geometryURL, dataURL)` returns `fragment` (line 105). -/
  | load (geometryName dataName : String) (fragment : Nat)
  /-- `fragments.edges.generate(fragment)` (line 107). -/
  | generate (fragment : Nat)
  /-- `lines.removeFromParent()` (line 108). -/
  | removeFromParent (lines : Object3D)
  /-- `thickItems.push(fragment.mesh)` (line 113). -/
  | pushThick (mesh : Nat)
  /-- `thinItems.push(fragment.mesh)` (line 114). -/
  | pushThin (mesh : Nat)
  /-- `ClippingEdges.initialize(components)` (line 120). -/
  | initClippingEdges
  /-- `ClippingEdges.newStyleFromMesh(name, meshes, material)` (lines 121, 126). -/
  | newStyleFromMesh (name : String) (meshes : List Nat) (material : LineMaterial)
  /-- `floorNav.create(config)` (line 148). -/
  | create (config : PlanConfig)
  /-- `levelContainer.appendChild(button)` (lines 160, 180). -/
  | appendChild (textContent : String)
  /-- `button.onclick = handler` (lines 162, 182). -/
  | onclick (handler : Handler)
  deriving DecidableEq, Repr

/-- What is given when `loadFragments` starts. -/
structure Env where
  /-- `scene.background`. -/
  background : Option Nat
  /-- Whether `fragments.edges.generate` attaches the new lines to the scene
  (otherwise to another parent). -/
  generateAddsToScene : Bool

/-- The variables of `loadFragments` and the library state it changes. -/
structure LoadState where
  steps : List Step
  thickItems : List Nat
  thinItems : List Nat
  /-- Number of fragments loaded so far. -/
  loaded : Nat
  /-- `Object.values(fragments.edges.edgesList)`. -/
  edgesList : List Object3D
  /-- `scene.children`. -/
  children : List Object3D
  deriving DecidableEq, Repr

/-- State at the call of `loadFragments` (line 73): the two lights are in
the scene (lines 45 and 49). -/
def LoadState.initial : LoadState :=
  { steps := [], thickItems := [], thinItems := [], loaded := 0,
    edgesList := [], children := [.directionalLight, .ambientLight] }

/-- Record a step. -/
def LoadState.emit (st : LoadState) (s : Step) : LoadState :=
  { st with steps := st.steps ++ [s] }

/-- `parent.add(o)`: `o` leaves its parent and becomes the last child. -/
def sceneAdd (o : Object3D) (children : List Object3D) : List Object3D :=
  children.filter (· ≠ o) ++ [o]

/-- `o.removeFromParent()` as seen from the scene. -/
def sceneRemove (o : Object3D) (children : List Object3D) : List Object3D :=
  children.filter (· ≠ o)

/-- `entries[name].json()`. -/
def readJson {α : Type} (name : String) (doc : Doc α) (st : LoadState) :
    LoadState × Except Error α :=
  match doc with
  | .missing => (st, .error (.typeError name))
  | .malformed => (st.emit (.json name), .error (.syntaxError name))
  | .parsed v => (st.emit (.json name), .ok v)

/-- Lines 83-84. -/
def thickTypes : List String :=
  ["IFCWALL", "IFCWALLSTANDARDCASE", "IFCSLAB", "IFCSTAIRFLIGHT", "IFCSTAIR",
   "IFCROOF", "IFCFOOTING", "IFCCOLUMN", "IFCBEAM"]

/-- The property key that `ids[0]` or `modelTypes[firstID]` is converted to
when it is used as an index: the decimal numeral of a number, and the text
`undefined` when there is no value. -/
def propertyKey : Option Nat → String
  | some n => toString n
  | none => "undefined"

/-- Lines 110-112: `allTypes[modelTypes[data.ids[0]]]` on an array `ids` and
two tables; `none` is `undefined`. -/
def category (modelTypes : List (String × Nat)) (allTypes : List (String × String))
    (ids : List Nat) : Option String :=
  let firstID := ids.head?
  let categoryID := modelTypes.lookup (propertyKey firstID)
  allTypes.lookup (propertyKey categoryID)

/-- Line 113: `thickTypes.includes(category)`. -/
def isThick (category : Option String) : Bool :=
  match category with
  | some c => thickTypes.contains c
  | none => false

/-- Lines 110-113: whether the mesh is thick; `data.ids[0]` throws when the
metadata has no `ids`, `modelTypes[firstID]` when `modelTypes` is `null`, and
`allTypes[categoryID]` when `allTypes` is `null`. -/
def classification (data : Option (List Nat)) (modelTypes : Option (List (String × Nat)))
    (allTypes : Option (List (String × String))) : Except Error Bool :=
  match data with
  | none => .error (.undefinedAccess "ids")
  | some ids =>
    match modelTypes with
    | none => .error (.undefinedAccess "modelTypes")
    | some modelTypes =>
      match allTypes with
      | none => .error (.undefinedAccess "allTypes")
      | some allTypes => .ok (isThick (category modelTypes allTypes ids))

/-- Lines 105-108: load the fragment, generate its edges and detach them. -/
def loadAndDetach (env : Env) (geometryName dataName : String) (st : LoadState) :
    LoadState :=
  let fragment := st.loaded
  let st := { st.emit (.load geometryName dataName fragment) with
              loaded := st.loaded + 1 }
  let lines := Object3D.lines fragment
  let st := { st.emit (.generate fragment) with
              edgesList := st.edgesList ++ [lines]
              children := if env.generateAddsToScene then sceneAdd lines st.children
                          else st.children }
  { st.emit (.removeFromParent lines) with
    children := sceneRemove lines st.children }

/-- Lines 113-114: push the mesh of the fragment. -/
def pushMesh (thick : Bool) (fragment : Nat) (st : LoadState) : LoadState :=
  if thick then
    { st.emit (.pushThick fragment) with thickItems := st.thickItems ++ [fragment] }
  else
    { st.emit (.pushThin fragment) with thinItems := st.thinItems ++ [fragment] }

/-- Lines 95-114 with the metadata name given: read the pair, load the
fragment, generate and detach its edges, classify its mesh. -/
def loadPair (env : Env) (a : Archive) (modelTypes : Option (List (String × Nat)))
    (allTypes : Option (List (String × String))) (geometryName dataName : String)
    (st : LoadState) : LoadState × Option Error :=
  let st := st.emit (.blob geometryName)
  match a.fragmentData dataName with
  | .missing => (st, some (.typeError dataName))
  | .malformed =>
    ((st.emit (.blob dataName)).emit (.json dataName), some (.syntaxError dataName))
  | .parsed data =>
    let st := (st.emit (.blob dataName)).emit (.json dataName)
    let fragment := st.loaded
    let st := loadAndDetach env geometryName dataName st
    match classification data modelTypes allTypes with
    | .error err => (st, some err)
    | .ok thick => (pushMesh thick fragment st, none)

/-- Lines 91-114: one turn of the loop over `fileNames`. -/
def loopBody (env : Env) (a : Archive) (modelTypes : Option (List (String × Nat)))
    (allTypes : Option (List (String × String))) (name : String) (st : LoadState) :
    LoadState × Option Error :=
  if !includes name ".glb" then (st, none)
  else loadPair env a modelTypes allTypes name (dataName name) st

/-- Lines 89-116: the loop over `fileNames`, left at the first error. -/
def loadLoop (env : Env) (a : Archive) (modelTypes : Option (List (String × Nat)))
    (allTypes : Option (List (String × String))) :
    List String → LoadState → LoadState × Option Error
  | [], st => (st, none)
  | name :: rest, st =>
    match loopBody env a modelTypes allTypes name st with
    | (st', some err) => (st', some err)
    | (st', none) => loadLoop env a modelTypes allTypes rest st'

/-- Lines 148-155: the plan of a level. -/
def planConfig (levelProps : LevelProps) : PlanConfig :=
  { id := levelProps.expressID
    ortho := true
    normal := ⟨.finite 0 0, .finite (-1) 0, .finite 0 0⟩
    point := ⟨.finite 0 0, levelProps.Elevation.add levelOffset, .finite 0 0⟩
    name := levelProps.Name
    rotation := .finite 0 0 }

/-- Lines 145-174: one turn of the loop over `levelsProperties`.  The reads
of `Elevation.value` (line 145) and of `Name.value` (line 153, in the argument
of `floorNav.create`) come before the first step of the turn. -/
def createLevel (st : LoadState) : LevelEntry → LoadState × Option Error
  | .noElevation => (st, some (.undefinedAccess "Elevation"))
  | .noName => (st, some (.undefinedAccess "Name"))
  | .level levelProps =>
    (((st.emit (.create (planConfig levelProps))).emit
      (.appendChild levelProps.Name)).emit (.onclick (.level levelProps)), none)

/-- Lines 144-175: the loop over `levelsProperties`, left at the first
error. -/
def createLevels : List LevelEntry → LoadState → LoadState × Option Error
  | [], st => (st, none)
  | entry :: rest, st =>
    match createLevel st entry with
    | (st', some err) => (st', some err)
    | (st', none) => createLevels rest st'

/-- Lines 121-122. -/
def thickMaterial : LineMaterial := { color := 0x333333, linewidth := 2 }

/-- Lines 126-127. -/
def thinMaterial : LineMaterial := { color := 0x333333, linewidth := 1 }

/-- Lines 120-129: both clipping styles. -/
def createStyles (st : LoadState) : LoadState :=
  ((st.emit .initClippingEdges).emit
    (.newStyleFromMesh "thick" st.thickItems thickMaterial)).emit
    (.newStyleFromMesh "thin" st.thinItems thinMaterial)

/-- Lines 178-191: the Exit button. -/
def createExit (st : LoadState) : LoadState :=
  (st.emit (.appendChild "Exit")).emit (.onclick .exit)

/-- How a call of `loadFragments` ends: the state reached and the error that
rejected the promise, if any. -/
structure Run where
  state : LoadState
  error : Option Error
  deriving DecidableEq, Repr

/-- Lines 75-192. -/
def loadFragments (env : Env) (a : Archive) : Run :=
  match readJson "model-types.json" a.modelTypes LoadState.initial with
  | (st, .error err) => ⟨st, some err⟩
  | (st, .ok modelTypes) =>
    match readJson "all-types.json" a.allTypes st with
    | (st, .error err) => ⟨st, some err⟩
    | (st, .ok allTypes) =>
      match loadLoop env a modelTypes allTypes a.fileNames st with
      | (st, some err) => ⟨st, some err⟩
      | (st, none) =>
        match readJson "levels-properties.json" a.levelsProperties (createStyles st) with
        | (st, .error err) => ⟨st, some err⟩
        | (st, .ok none) => ⟨st, some (.undefinedAccess "levelsProperties")⟩
        | (st, .ok (some levelsProperties)) =>
          match createLevels levelsProperties st with
          | (st, some err) => ⟨st, some err⟩
          | (st, none) => ⟨createExit st, none⟩

/-- Line 73: `loadFragments()` is called bare, with no `await`, `then` or
`catch`: what the page is left with is the outcome of the call itself. -/
def main (env : Env) (a : Archive) : Run :=
  loadFragments env a

/-! ## The page after loading -/

/-- Calls made by the click handlers, in order. -/
inductive Call
  | sceneAdd (o : Object3D)
  | removeFromParent (o : Object3D)
  | materialsApply
  | materialsReset
  | goTo (id : Nat)
  | exitPlanView
  | setNeedsUpdate (value : Bool)
  | updateVisibility
  deriving DecidableEq, Repr

/-- Line 137: `whiteColor`. -/
def whiteColor : Option Nat := some 0xffffff

/-- What the handlers read and write. -/
structure View where
  wasFloorplanActive : Bool
  /-- `scene.background`. -/
  background : Option Nat
  /-- `scene.children`. -/
  children : List Object3D
  calls : List Call
  deriving DecidableEq, Repr

/-- What the handlers only read: `fragments.edges.edgesList` and the
`backgroundColor` of line 136. -/
structure Page where
  edgesList : List Object3D
  backgroundColor : Option Nat

/-- Record a call. -/
def View.call (v : View) (c : Call) : View :=
  { v with calls := v.calls ++ [c] }

/-- Lines 194-200. -/
def toggleEdges (page : Page) (visible : Bool) (v : View) : View :=
  page.edgesList.foldl
    (fun v edge =>
      if visible then { v.call (.sceneAdd edge) with children := sceneAdd edge v.children }
      else { v.call (.removeFromParent edge) with children := sceneRemove edge v.children })
    v

/-- Lines 162-174: the handler of a level button. -/
def levelOnclick (page : Page) (levelProps : LevelProps) (v : View) : View :=
  let v := if !v.wasFloorplanActive then
      { toggleEdges page true v with background := whiteColor }
    else v
  let v := v.call .materialsApply
  let v := v.call (.goTo levelProps.expressID)
  let v := v.call (.setNeedsUpdate true)
  let v := v.call .updateVisibility
  { v with wasFloorplanActive := true }

/-- Lines 182-191: the handler of the Exit button. -/
def exitOnclick (page : Page) (v : View) : View :=
  let v := v.call .materialsReset
  let v := v.call .exitPlanView
  let v := v.call (.setNeedsUpdate true)
  let v := v.call .updateVisibility
  let v := { v with wasFloorplanActive := false }
  let v := toggleEdges page false v
  { v with background := page.backgroundColor }

/-- A click on a button runs its handler to the end. -/
def click (page : Page) (v : View) : Handler → View
  | .level levelProps => levelOnclick page levelProps v
  | .exit => exitOnclick page v

/-- A sequence of clicks, each handled before the next. -/
def clicks (page : Page) (v : View) (hs : List Handler) : View :=
  hs.foldl (click page) v

/-- The page when a successful `loadFragments` returns. -/
def pageAfter (env : Env) (st : LoadState) : Page :=
  { edgesList := st.edgesList, backgroundColor := env.background }

/-- The view when a successful `loadFragments` returns: line 133 and the
scene as the load left it. -/
def viewAfter (env : Env) (st : LoadState) : View :=
  { wasFloorplanActive := false, background := env.background,
    children := st.children, calls := [] }

/-- Labels of the buttons appended to the plan container, in order. -/
def buttons (steps : List Step) : List String :=
  steps.filterMap fun
    | .appendChild label => some label
    | _ => none

/-- Handlers installed, in order. -/
def handlers (steps : List Step) : List Handler :=
  steps.filterMap fun
    | .onclick h => some h
    | _ => none

/-- Plans created, in order. -/
def plans (steps : List Step) : List PlanConfig :=
  steps.filterMap fun
    | .create c => some c
    | _ => none

/-- Fragments loaded, in order: geometry name, metadata name, fragment. -/
def loads (steps : List Step) : List (String × String × Nat) :=
  steps.filterMap fun
    | .load g d f => some (g, d, f)
    | _ => none

/-- A small archive: two fragments, one wall and one door, and two levels. -/
def sampleArchive : Archive :=
  { fileNames := ["model-types.json", "all-types.json", "levels-properties.json",
                  "a.glb", "a.json", "b.glb", "b.json"]
    modelTypes := .parsed (some [("10", 1), ("20", 2)])
    allTypes := .parsed (some [("1", "IFCWALL"), ("2", "IFCDOOR")])
    levelsProperties := .parsed (some
      [.level ⟨100, "Ground", .finite 0 0⟩, .level ⟨200, "First", .finite 3 0⟩])
    fragmentData := fun name =>
      if name = "a.json" then .parsed (some [10])
      else if name = "b.json" then .parsed (some [20, 10])
      else .missing }

/-- An environment for the examples. -/
def sampleEnv : Env := { background := some 0x202932, generateAddsToScene := true }

/-- The characters of `.glb`. -/
def glb : List Char := ['.', 'g', 'l', 'b']

/-- The characters of `.json`. -/
def json : List Char := ['.', 'j', 's', 'o', 'n']

/-! ## Notions used in the statements and proofs -/

/-- Steps of the loading phase: reads, loads, edge generation, pushes. -/
def Step.loadPhase : Step → Bool
  | .json _ | .blob _ | .load _ _ _ | .generate _ | .removeFromParent _
  | .pushThick _ | .pushThin _ => true
  | _ => false

/-- Steps that load or classify a fragment. -/
def Step.classifies : Step → Bool
  | .load _ _ _ | .pushThick _ | .pushThin _ => true
  | _ => false

/-- State in which the loop over `fileNames` starts. -/
def loopStart : LoadState :=
  (LoadState.initial.emit (.json "model-types.json")).emit (.json "all-types.json")

/-- The steps of one turn of the loop over `levelsProperties`. -/
def levelSteps (levelProps : LevelProps) : List Step :=
  [.create (planConfig levelProps), .appendChild levelProps.Name,
   .onclick (.level levelProps)]

/-- The steps of the whole loop over `levelsProperties`. -/
def levelsSteps : List LevelProps → List Step
  | [] => []
  | levelProps :: rest => levelSteps levelProps ++ levelsSteps rest

/-- The steps of `createStyles`. -/
def styleSteps (st : LoadState) : List Step :=
  [.initClippingEdges, .newStyleFromMesh "thick" st.thickItems thickMaterial,
   .newStyleFromMesh "thin" st.thinItems thinMaterial]

/-- What holds of the state before and after every turn of the loading loop. -/
structure LoopInv (a : Archive) (st : LoadState) : Prop where
  phase : ∀ s ∈ st.steps, s.loadPhase = true
  ids : (loads st.steps).map (fun x => x.2.2) = List.range st.loaded
  pairs : ∀ x ∈ loads st.steps,
    x.2.1 = dataName x.1 ∧ ∃ data, a.fragmentData x.2.1 = .parsed data
  classes : ∃ c : Nat → Bool,
    st.thickItems = (List.range st.loaded).filter c ∧
    st.thinItems = (List.range st.loaded).filter (fun m => !c m)
  pushes : ∀ f, f < st.loaded → Step.pushThick f ∈ st.steps ∨ Step.pushThin f ∈ st.steps
  edges : ∀ e ∈ st.edgesList, e ∉ st.children

/-- What holds of the state of every run while it is in the loading loop,
also when a turn has thrown. -/
structure WeakInv (a : Archive) (st : LoadState) : Prop where
  phase : ∀ s ∈ st.steps, s.loadPhase = true
  pairs : ∀ x ∈ loads st.steps,
    x.2.1 = dataName x.1 ∧ ∃ data, a.fragmentData x.2.1 = .parsed data

/-- The state after a turn that loads a fragment and finds it thick or not. -/
def afterPair (env : Env) (geometryName dataName : String) (thick : Bool)
    (st : LoadState) : LoadState :=
  { steps := st.steps ++
      [.blob geometryName, .blob dataName, .json dataName,
       .load geometryName dataName st.loaded, .generate st.loaded,
       .removeFromParent (.lines st.loaded),
       if thick then .pushThick st.loaded else .pushThin st.loaded]
    thickItems := st.thickItems ++ (if thick then [st.loaded] else [])
    thinItems := st.thinItems ++ (if !thick then [st.loaded] else [])
    loaded := st.loaded + 1
    edgesList := st.edgesList ++ [.lines st.loaded]
    children := sceneRemove (.lines st.loaded)
      (if env.generateAddsToScene then sceneAdd (.lines st.loaded) st.children
       else st.children) }

/-- The state after a turn that loads a fragment and throws before the
push. -/
def afterLoad (env : Env) (geometryName dataName : String) (st : LoadState) :
    LoadState :=
  { steps := st.steps ++
      [.blob geometryName, .blob dataName, .json dataName,
       .load geometryName dataName st.loaded, .generate st.loaded,
       .removeFromParent (.lines st.loaded)]
    thickItems := st.thickItems
    thinItems := st.thinItems
    loaded := st.loaded + 1
    edgesList := st.edgesList ++ [.lines st.loaded]
    children := sceneRemove (.lines st.loaded)
      (if env.generateAddsToScene then sceneAdd (.lines st.loaded) st.children
       else st.children) }

/-- The names the loop loads a fragment for. -/
def glbNames (names : List String) : List String :=
  names.filter (fun name => includes name ".glb")

/-- The steps of `createExit`. -/
def exitSteps : List Step := [.appendChild "Exit", .onclick .exit]

/-- The steps that follow the loading loop in a successful run. -/
def uiSteps (st : LoadState) (levels : List LevelProps) : List Step :=
  styleSteps st ++ [.json "levels-properties.json"] ++ levelsSteps levels ++ exitSteps

/-- The loading loop of the run over `a` has ended without error in `st`. -/
structure LoopDone (env : Env) (a : Archive) (mt : Option (List (String × Nat)))
    (at_ : Option (List (String × String))) (st : LoadState) : Prop where
  modelTypes : a.modelTypes = .parsed mt
  allTypes : a.allTypes = .parsed at_
  loop : loadLoop env a mt at_ a.fileNames loopStart = (st, none)
  inv : LoopInv a st
  names : (loads st.steps).map (fun x => x.1) = glbNames a.fileNames

/-- The steps after the two styles in a successful run. -/
def tailSteps (levels : List LevelProps) : List Step :=
  [.json "levels-properties.json"] ++ levelsSteps levels ++ exitSteps

/-- An archive with a geometry entry whose metadata entry is missing. -/
def missingPairArchive : Archive :=
  { fileNames := ["model-types.json", "all-types.json", "levels-properties.json", "a.glb"]
    modelTypes := .parsed (some [("10", 1)])
    allTypes := .parsed (some [("1", "IFCWALL")])
    levelsProperties := .parsed (some [.level ⟨100, "Ground", .finite 0 0⟩])
    fragmentData := fun _ => .missing }

/-- An archive with a pair whose metadata is the object without `ids`. -/
def noIdsArchive : Archive :=
  { fileNames := ["model-types.json", "all-types.json", "levels-properties.json",
                  "a.glb", "a.json"]
    modelTypes := .parsed (some [("10", 1)])
    allTypes := .parsed (some [("1", "IFCWALL")])
    levelsProperties := .parsed (some [.level ⟨100, "Ground", .finite 0 0⟩])
    fragmentData := fun name => if name = "a.json" then .parsed none else .missing }

/-- Steps that build the navigation: plans, buttons, handlers. -/
def Step.navigation : Step → Bool
  | .create _ | .appendChild _ | .onclick _ => true
  | _ => false

/-- Steps that create the clipping styles. -/
def Step.style : Step → Bool
  | .initClippingEdges | .newStyleFromMesh _ _ _ => true
  | _ => false

/-- What the handlers keep true between clicks. -/
structure ViewInv (page : Page) (v : View) : Prop where
  edges : ∀ e ∈ page.edgesList, (e ∈ v.children ↔ v.wasFloorplanActive = true)
  background : v.background = if v.wasFloorplanActive then whiteColor else page.backgroundColor

/-- An archive with one level and no `model-types.json`. -/
def missingTableArchive : Archive :=
  { fileNames := ["all-types.json", "levels-properties.json"]
    modelTypes := .missing
    allTypes := .parsed (some [("1", "IFCWALL")])
    levelsProperties := .parsed (some [.level ⟨100, "Ground", .finite 0 0⟩])
    fragmentData := fun _ => .missing }

/-- An archive whose only level has the elevation `2 ^ 54`. -/
def highLevelArchive : Archive :=
  { fileNames := ["model-types.json", "all-types.json", "levels-properties.json"]
    modelTypes := .parsed (some [("10", 1)])
    allTypes := .parsed (some [("1", "IFCWALL")])
    levelsProperties := .parsed (some [.level ⟨100, "Sky", .finite 18014398509481984 0⟩])
    fragmentData := fun _ => .missing }

/-! ## Strings: searching for a pattern -/

theorem indexOfChars_some {p s : List Char} {i : Nat} (h : indexOfChars p s = some i) :
    i ≤ s.length ∧ p <+: s.drop i ∧ ∀ j, j < i → ¬ p <+: s.drop j := by
  induction s generalizing i with
  | nil =>
    unfold indexOfChars at h
    split at h
    · rename_i hp
      cases h
      exact ⟨le_refl _, List.isPrefixOf_iff_prefix.mp hp, fun j hj => absurd hj (Nat.not_lt_zero j)⟩
    · cases h
  | cons c cs ih =>
    unfold indexOfChars at h
    split at h
    · rename_i hp
      cases h
      exact ⟨Nat.zero_le _, List.isPrefixOf_iff_prefix.mp hp, fun j hj => absurd hj (Nat.not_lt_zero j)⟩
    · rename_i hp
      cases hq : indexOfChars p cs with
      | none => simp [hq] at h
      | some k =>
        simp [hq] at h
        subst h
        obtain ⟨h1, h2, h3⟩ := ih hq
        refine ⟨by simpa using h1, by simpa using h2, ?_⟩
        intro j hj
        cases j with
        | zero => simpa [List.isPrefixOf_iff_prefix] using hp
        | succ j => simpa using h3 j (by omega)

theorem indexOfChars_none {p s : List Char} (h : indexOfChars p s = none) :
    ∀ j, ¬ p <+: s.drop j := by
  induction s with
  | nil =>
    unfold indexOfChars at h
    split at h
    · cases h
    · rename_i hp
      intro j
      simpa [List.isPrefixOf_iff_prefix] using hp
  | cons c cs ih =>
    unfold indexOfChars at h
    split at h
    · cases h
    · rename_i hp
      cases hq : indexOfChars p cs with
      | some k => simp [hq] at h
      | none =>
        intro j
        cases j with
        | zero => simpa [List.isPrefixOf_iff_prefix] using hp
        | succ j => simpa using ih hq j

theorem glb_not_prefix_append_glb (r : List Char) (hr : r ≠ []) (h : ¬ glb <+: r) :
    ¬ glb <+: r ++ glb := by
  rcases r with _ | ⟨a, _ | ⟨b, _ | ⟨c, _ | ⟨d, r⟩⟩⟩⟩
  · exact absurd rfl hr
  all_goals simp [glb, List.cons_prefix_cons] at h ⊢
  all_goals tauto

theorem glb_not_prefix_append_json (r : List Char) (hr : r ≠ []) (h : ¬ glb <+: r) :
    ¬ glb <+: r ++ json := by
  rcases r with _ | ⟨a, _ | ⟨b, _ | ⟨c, _ | ⟨d, r⟩⟩⟩⟩
  · exact absurd rfl hr
  all_goals simp [glb, json, List.cons_prefix_cons] at h ⊢
  all_goals tauto

theorem glb_not_prefix_drop_json (k : Nat) : ¬ glb <+: json.drop k := by
  rcases k with _ | _ | _ | _ | _ | _ | k <;> simp [glb, json, List.cons_prefix_cons]

theorem indexOfChars_append_glb (base : List Char) (h : indexOfChars glb base = none) :
    indexOfChars glb (base ++ glb) = some base.length := by
  have hb := indexOfChars_none h
  cases hq : indexOfChars glb (base ++ glb) with
  | none =>
    exact absurd (by simp) (indexOfChars_none hq base.length)
  | some i =>
    obtain ⟨_, h2, h3⟩ := indexOfChars_some hq
    have hle : i ≤ base.length := by
      by_contra hlt
      exact h3 base.length (by omega) (by simp)
    rcases Nat.lt_or_ge i base.length with hlt | hge
    · exfalso
      rw [List.drop_append_of_le_length hle] at h2
      refine glb_not_prefix_append_glb (base.drop i) ?_ (hb i) h2
      intro hnil
      have := congrArg List.length hnil
      simp at this
      omega
    · congr 1
      omega

theorem indexOfChars_take_append_json {s : List Char} {i : Nat}
    (h : indexOfChars glb s = some i) : indexOfChars glb (s.take i ++ json) = none := by
  obtain ⟨h1, _, h3⟩ := indexOfChars_some h
  cases hq : indexOfChars glb (s.take i ++ json) with
  | none => rfl
  | some k =>
    exfalso
    obtain ⟨_, k2, _⟩ := indexOfChars_some hq
    have hlen : (s.take i).length = i := by simp [h1]
    rcases Nat.lt_or_ge k i with hlt | hge
    · rw [List.drop_append_of_le_length (by omega)] at k2
      refine glb_not_prefix_append_json ((s.take i).drop k) ?_ ?_ k2
      · intro hnil
        have := congrArg List.length hnil
        simp at this
        omega
      · intro hp
        refine h3 k hlt (hp.trans ?_)
        rw [List.drop_take]
        exact List.take_prefix _ _
    · have hd : (s.take i ++ json).drop k = json.drop (k - i) := by
        rw [List.drop_append_eq_append_drop, hlen, List.drop_eq_nil_of_le (by omega)]
        rfl
      rw [hd] at k2
      exact glb_not_prefix_drop_json _ k2

theorem glb_data : (".glb" : String).data = glb := rfl

theorem json_data : (".json" : String).data = json := rfl

theorem substring_zero (s : String) (i : Nat) (h : i ≤ s.data.length) :
    substring s 0 (i : Int) = String.mk (s.data.take i) := by
  unfold substring
  have e1 : min (max (0 : Int) 0) (s.data.length : Int) = 0 := by simp
  have e2 : min (max (i : Int) 0) (s.data.length : Int) = (i : Int) := by
    rw [max_eq_left (by omega), min_eq_left (by omega)]
  simp only [e1, e2]
  have e3 : min (0 : Int) (i : Int) = 0 := min_eq_left (by omega)
  have e4 : max (0 : Int) (i : Int) = (i : Int) := max_eq_right (by omega)
  simp [e3, e4]

theorem dataName_of_index {s : String} {i : Nat} (h : indexOfChars glb s.data = some i) :
    dataName s = String.mk (s.data.take i) ++ ".json" := by
  have hi := (indexOfChars_some h).1
  unfold dataName indexOf
  rw [glb_data, h]
  simp only
  rw [substring_zero s i hi]

theorem includes_glb_false {s : String} :
    includes s ".glb" = false ↔ indexOfChars glb s.data = none := by
  unfold includes
  rw [glb_data]
  cases indexOfChars glb s.data <;> simp

theorem includes_glb_true {s : String} :
    includes s ".glb" = true ↔ ∃ i, indexOfChars glb s.data = some i := by
  unfold includes
  rw [glb_data]
  cases indexOfChars glb s.data <;> simp

theorem dataName_append_glb (base : String) (h : includes base ".glb" = false) :
    dataName (base ++ ".glb") = base ++ ".json" := by
  have hi := indexOfChars_append_glb base.data (includes_glb_false.mp h)
  have hd : (base ++ ".glb").data = base.data ++ glb := by
    rw [String.data_append, glb_data]
  rw [← hd] at hi
  rw [dataName_of_index hi, hd]
  simp

theorem includes_dataName (name : String) (h : includes name ".glb" = true) :
    includes (dataName name) ".glb" = false := by
  obtain ⟨i, hi⟩ := includes_glb_true.mp h
  rw [dataName_of_index hi, includes_glb_false, String.data_append, json_data]
  exact indexOfChars_take_append_json hi

theorem loads_append (xs ys : List Step) : loads (xs ++ ys) = loads xs ++ loads ys := by
  simp [loads, List.filterMap_append]

theorem filter_range_succ (c : Nat → Bool) (k : Nat) (b : Bool) :
    (List.range (k + 1)).filter (fun m => if m = k then b else c m)
      = (List.range k).filter c ++ (if b then [k] else []) := by
  rw [List.range_succ, List.filter_append]
  congr 1
  · apply List.filter_congr
    intro x hx
    have : x ≠ k := by
      have := List.mem_range.mp hx
      omega
    simp [this]
  · cases b <;> simp

theorem LoopInv.loopStart (a : Archive) : LoopInv a loopStart where
  phase := by
    intro s hs
    simp [FragmentPlans.loopStart, LoadState.emit, LoadState.initial] at hs
    rcases hs with rfl | rfl <;> rfl
  ids := by simp [FragmentPlans.loopStart, LoadState.emit, LoadState.initial, loads]
  pairs := by simp [FragmentPlans.loopStart, LoadState.emit, LoadState.initial, loads]
  classes := ⟨fun _ => true, by simp [FragmentPlans.loopStart, LoadState.emit, LoadState.initial]⟩
  pushes := by simp [FragmentPlans.loopStart, LoadState.emit, LoadState.initial]
  edges := by simp [FragmentPlans.loopStart, LoadState.emit, LoadState.initial]

theorem LoopInv.weak {a : Archive} {st : LoadState} (h : LoopInv a st) : WeakInv a st :=
  ⟨h.phase, h.pairs⟩

theorem WeakInv.initial (a : Archive) : WeakInv a LoadState.initial where
  phase := by simp [LoadState.initial]
  pairs := by simp [LoadState.initial, loads]

theorem loadPair_ok (env : Env) (a : Archive) (mt : Option (List (String × Nat)))
    (at_ : Option (List (String × String))) (g d : String) (data : Option (List Nat))
    (thick : Bool) (st : LoadState)
    (h : a.fragmentData d = .parsed data) (hc : classification data mt at_ = .ok thick) :
    loadPair env a mt at_ g d st = (afterPair env g d thick st, none) := by
  unfold loadPair afterPair
  simp only [h, hc, loadAndDetach, pushMesh, LoadState.emit]
  cases thick <;> simp

theorem loadPair_throw (env : Env) (a : Archive) (mt : Option (List (String × Nat)))
    (at_ : Option (List (String × String))) (g d : String) (data : Option (List Nat))
    (err : Error) (st : LoadState)
    (h : a.fragmentData d = .parsed data) (hc : classification data mt at_ = .error err) :
    loadPair env a mt at_ g d st = (afterLoad env g d st, some err) := by
  unfold loadPair afterLoad
  simp [h, hc, loadAndDetach, LoadState.emit]

theorem loadPair_missing (env : Env) (a : Archive) (mt : Option (List (String × Nat)))
    (at_ : Option (List (String × String))) (g d : String) (st : LoadState)
    (h : a.fragmentData d = .missing) :
    loadPair env a mt at_ g d st = (st.emit (.blob g), some (.typeError d)) := by
  unfold loadPair
  simp only [h]

theorem loadPair_malformed (env : Env) (a : Archive) (mt : Option (List (String × Nat)))
    (at_ : Option (List (String × String))) (g d : String) (st : LoadState)
    (h : a.fragmentData d = .malformed) :
    loadPair env a mt at_ g d st
      = (((st.emit (.blob g)).emit (.blob d)).emit (.json d), some (.syntaxError d)) := by
  unfold loadPair
  simp only [h]

theorem classification_error (data : Option (List Nat)) (mt : Option (List (String × Nat)))
    (at_ : Option (List (String × String))) (err : Error)
    (h : classification data mt at_ = .error err) : ∃ what, err = .undefinedAccess what := by
  unfold classification at h
  cases data with
  | none => simp only [Except.error.injEq] at h; exact ⟨_, h.symm⟩
  | some ids =>
    cases mt with
    | none => simp only [Except.error.injEq] at h; exact ⟨_, h.symm⟩
    | some mt =>
      cases at_ with
      | none => simp only [Except.error.injEq] at h; exact ⟨_, h.symm⟩
      | some at_ => simp at h

theorem WeakInv.emit_read {a : Archive} {st : LoadState} (h : WeakInv a st) (s : Step)
    (hs : (∃ n, s = .blob n) ∨ (∃ n, s = .json n)) : WeakInv a (st.emit s) := by
  have hl : loads (st.emit s).steps = loads st.steps := by
    rcases hs with ⟨n, rfl⟩ | ⟨n, rfl⟩ <;> simp [LoadState.emit, loads, List.filterMap_append]
  refine ⟨?_, ?_⟩
  · intro x hx
    simp only [LoadState.emit, List.mem_append, List.mem_singleton] at hx
    rcases hx with hx | rfl
    · exact h.phase x hx
    · rcases hs with ⟨n, rfl⟩ | ⟨n, rfl⟩ <;> rfl
  · rw [hl]; exact h.pairs

theorem WeakInv.afterLoad {a : Archive} {st : LoadState} (h : WeakInv a st) (env : Env)
    (g : String) (data : Option (List Nat))
    (hd : a.fragmentData (dataName g) = .parsed data) :
    WeakInv a (FragmentPlans.afterLoad env g (dataName g) st) := by
  refine ⟨?_, ?_⟩
  · intro x hx
    simp only [FragmentPlans.afterLoad, List.mem_append] at hx
    rcases hx with hx | hx
    · exact h.phase x hx
    · simp only [List.mem_cons, List.mem_singleton, List.not_mem_nil, or_false] at hx
      rcases hx with rfl | rfl | rfl | rfl | rfl | rfl <;> rfl
  · have hl : loads (FragmentPlans.afterLoad env g (dataName g) st).steps
        = loads st.steps ++ [(g, dataName g, st.loaded)] := by
      simp [FragmentPlans.afterLoad, loads, List.filterMap_append]
    rw [hl]
    intro x hx
    rcases List.mem_append.mp hx with hx | hx
    · exact h.pairs x hx
    · simp only [List.mem_singleton] at hx
      subst hx
      exact ⟨rfl, data, hd⟩

theorem LoopInv.afterPair {a : Archive} {st : LoadState} (h : LoopInv a st) (env : Env)
    (g : String) (data : Option (List Nat)) (thick : Bool)
    (hd : a.fragmentData (dataName g) = .parsed data) :
    LoopInv a (FragmentPlans.afterPair env g (dataName g) thick st) := by
  have hl : loads (FragmentPlans.afterPair env g (dataName g) thick st).steps
      = loads st.steps ++ [(g, dataName g, st.loaded)] := by
    unfold FragmentPlans.afterPair
    cases thick <;> simp [loads, List.filterMap_append]
  refine ⟨?_, ?_, ?_, ?_, ?_, ?_⟩
  · intro x hx
    simp only [FragmentPlans.afterPair, List.mem_append] at hx
    rcases hx with hx | hx
    · exact h.phase x hx
    · cases thick <;> simp at hx <;>
        rcases hx with rfl | rfl | rfl | rfl | rfl | rfl | rfl <;> rfl
  · rw [hl, List.map_append, h.ids]
    simp [FragmentPlans.afterPair, List.range_succ]
  · rw [hl]
    intro x hx
    rcases List.mem_append.mp hx with hx | hx
    · exact h.pairs x hx
    · simp only [List.mem_singleton] at hx
      subst hx
      exact ⟨rfl, data, hd⟩
  · obtain ⟨c, hc1, hc2⟩ := h.classes
    refine ⟨fun m => if m = st.loaded then thick else c m, ?_, ?_⟩
    · simp only [FragmentPlans.afterPair]
      rw [filter_range_succ, hc1]
    · simp only [FragmentPlans.afterPair]
      have e : (fun m => !(if m = st.loaded then thick else c m))
          = (fun m => if m = st.loaded then !thick else !c m) := by
        funext m
        split <;> rfl
      rw [e, filter_range_succ (fun m => !c m), hc2]
  · intro f hf
    simp only [FragmentPlans.afterPair] at hf ⊢
    rcases Nat.lt_or_ge f st.loaded with hlt | hge
    · rcases h.pushes f hlt with h1 | h1
      · exact Or.inl (List.mem_append_left _ h1)
      · exact Or.inr (List.mem_append_left _ h1)
    · have : f = st.loaded := by omega
      subst this
      cases thick <;> simp
  · intro e he
    simp only [FragmentPlans.afterPair, List.mem_append, List.mem_singleton] at he
    simp only [FragmentPlans.afterPair, sceneRemove, sceneAdd]
    rcases he with he | rfl
    · have hn := h.edges e he
      split <;> simp [List.mem_filter, hn]
    · simp [List.mem_filter]

theorem LoopInv.loopBody {a : Archive} {st : LoadState} (h : LoopInv a st) (env : Env)
    (mt : Option (List (String × Nat))) (at_ : Option (List (String × String)))
    (name : String) :
    WeakInv a (FragmentPlans.loopBody env a mt at_ name st).1 ∧
    ((FragmentPlans.loopBody env a mt at_ name st).2 = none →
      LoopInv a (FragmentPlans.loopBody env a mt at_ name st).1) := by
  unfold FragmentPlans.loopBody
  split
  · exact ⟨h.weak, fun _ => h⟩
  · cases hd : a.fragmentData (dataName name) with
    | missing =>
      rw [loadPair_missing _ _ _ _ _ _ _ hd]
      exact ⟨h.weak.emit_read _ (Or.inl ⟨_, rfl⟩), fun hn => by cases hn⟩
    | malformed =>
      rw [loadPair_malformed _ _ _ _ _ _ _ hd]
      exact ⟨((h.weak.emit_read _ (Or.inl ⟨_, rfl⟩)).emit_read _ (Or.inl ⟨_, rfl⟩)).emit_read _
        (Or.inr ⟨_, rfl⟩), fun hn => by cases hn⟩
    | parsed data =>
      cases hc : classification data mt at_ with
      | error err =>
        rw [loadPair_throw _ _ _ _ _ _ _ _ _ hd hc]
        exact ⟨h.weak.afterLoad env name data hd, fun hn => by cases hn⟩
      | ok thick =>
        rw [loadPair_ok _ _ _ _ _ _ _ _ _ hd hc]
        have := h.afterPair env name data thick hd
        exact ⟨this.weak, fun _ => this⟩

theorem LoopInv.loadLoop {a : Archive} (env : Env) (mt : Option (List (String × Nat)))
    (at_ : Option (List (String × String))) (names : List String) :
    ∀ st, LoopInv a st →
      WeakInv a (FragmentPlans.loadLoop env a mt at_ names st).1 ∧
      ((FragmentPlans.loadLoop env a mt at_ names st).2 = none →
        LoopInv a (FragmentPlans.loadLoop env a mt at_ names st).1) := by
  induction names with
  | nil => intro st h; exact ⟨h.weak, fun _ => h⟩
  | cons name rest ih =>
    intro st h
    unfold FragmentPlans.loadLoop
    have hb := h.loopBody env mt at_ name
    split
    · rename_i st1 err heq
      rw [heq] at hb
      exact ⟨hb.1, fun hn => by cases hn⟩
    · rename_i st1 heq
      rw [heq] at hb
      exact ih st1 (hb.2 rfl)

theorem loopBody_names (env : Env) (a : Archive) (mt : Option (List (String × Nat)))
    (at_ : Option (List (String × String))) (name : String) (st : LoadState)
    (h : (loopBody env a mt at_ name st).2 = none) :
    (loads (loopBody env a mt at_ name st).1.steps).map (fun x => x.1)
      = (loads st.steps).map (fun x => x.1) ++ glbNames [name] := by
  unfold loopBody at h ⊢
  cases hi : includes name ".glb"
  · simp [glbNames, hi]
  · simp only [hi, Bool.not_true, Bool.false_eq_true, if_false] at h ⊢
    cases hd : a.fragmentData (dataName name) with
    | missing => rw [loadPair_missing _ _ _ _ _ _ _ hd] at h; cases h
    | malformed => rw [loadPair_malformed _ _ _ _ _ _ _ hd] at h; cases h
    | parsed data =>
      cases hc : classification data mt at_ with
      | error err => rw [loadPair_throw _ _ _ _ _ _ _ _ _ hd hc] at h; cases h
      | ok thick =>
        rw [loadPair_ok _ _ _ _ _ _ _ _ _ hd hc]
        simp only [afterPair, glbNames]
        cases thick <;> simp [loads, List.filterMap_append, hi]

theorem loadLoop_names (env : Env) (a : Archive) (mt : Option (List (String × Nat)))
    (at_ : Option (List (String × String))) (names : List String) :
    ∀ st, (loadLoop env a mt at_ names st).2 = none →
      (loads (loadLoop env a mt at_ names st).1.steps).map (fun x => x.1)
        = (loads st.steps).map (fun x => x.1) ++ glbNames names := by
  induction names with
  | nil => intro st _; simp [loadLoop, glbNames]
  | cons name rest ih =>
    intro st h
    have hb := loopBody_names env a mt at_ name st
    unfold loadLoop at h ⊢
    split at h
    · cases h
    · rename_i st1 heq
      rw [heq] at hb
      have hcons : glbNames (name :: rest) = glbNames [name] ++ glbNames rest := by
        simp only [glbNames]
        rw [← List.filter_append]
        rfl
      rw [ih st1 h, hb rfl, hcons, List.append_assoc]

theorem loadLoop_error (env : Env) (a : Archive) (mt : Option (List (String × Nat)))
    (at_ : Option (List (String × String))) (names : List String) (name : String)
    (hmem : name ∈ names) (hinc : includes name ".glb" = true)
    (hd : a.fragmentData (dataName name) = .missing ∨
          a.fragmentData (dataName name) = .malformed) :
    ∀ st, (loadLoop env a mt at_ names st).2 ≠ none := by
  induction names with
  | nil => cases hmem
  | cons n rest ih =>
    intro st
    unfold loadLoop
    split
    · simp
    · rename_i st1 heq
      rcases List.mem_cons.mp hmem with rfl | hr
      · exfalso
        unfold loopBody at heq
        simp only [hinc, Bool.not_true, Bool.false_eq_true, if_false] at heq
        rcases hd with hd | hd
        · rw [loadPair_missing _ _ _ _ _ _ _ hd] at heq
          cases heq
        · rw [loadPair_malformed _ _ _ _ _ _ _ hd] at heq
          cases heq
      · exact ih hr st1

theorem createLevels_spec (entries : List LevelEntry) :
    ∀ st, ∃ done : List LevelProps,
      (createLevels entries st).1 = { st with steps := st.steps ++ levelsSteps done } ∧
      ((createLevels entries st).2 = none → entries = done.map LevelEntry.level) ∧
      (∀ err, (createLevels entries st).2 = some err → ∃ what, err = .undefinedAccess what) := by
  induction entries with
  | nil =>
    intro st
    exact ⟨[], by simp [createLevels, levelsSteps], by simp [createLevels],
      by simp [createLevels]⟩
  | cons entry rest ih =>
    intro st
    cases entry with
    | noElevation =>
      exact ⟨[], by simp [createLevels, createLevel, levelsSteps],
        by simp [createLevels, createLevel],
        by simp [createLevels, createLevel]⟩
    | noName =>
      exact ⟨[], by simp [createLevels, createLevel, levelsSteps],
        by simp [createLevels, createLevel],
        by simp [createLevels, createLevel]⟩
    | level l =>
      obtain ⟨done, h1, h2, h3⟩ := ih
        (((st.emit (.create (planConfig l))).emit (.appendChild l.Name)).emit
          (.onclick (.level l)))
      have hstep : createLevels (.level l :: rest) st
          = createLevels rest
              (((st.emit (.create (planConfig l))).emit (.appendChild l.Name)).emit
                (.onclick (.level l))) := by
        simp [createLevels, createLevel]
      rw [hstep]
      refine ⟨l :: done, ?_, ?_, h3⟩
      · rw [h1]
        simp [LoadState.emit, levelsSteps, levelSteps]
      · intro hn
        rw [h2 hn]
        rfl

theorem loads_loopStart : loads loopStart.steps = [] := by
  simp [loopStart, LoadState.emit, LoadState.initial, loads]

theorem loopDone_of_loop {env : Env} {a : Archive} {mt : Option (List (String × Nat))}
    {at_ : Option (List (String × String))} {st : LoadState}
    (hm : a.modelTypes = .parsed mt) (ha : a.allTypes = .parsed at_)
    (hl : loadLoop env a mt at_ a.fileNames loopStart = (st, none)) :
    LoopDone env a mt at_ st := by
  refine ⟨hm, ha, hl, ?_, ?_⟩
  · have := (LoopInv.loadLoop env mt at_ a.fileNames loopStart (LoopInv.loopStart a)).2
    rw [hl] at this
    exact this rfl
  · have h1 := loadLoop_names env a mt at_ a.fileNames loopStart
    rw [hl] at h1
    rw [h1 rfl, loads_loopStart]
    rfl

theorem loadFragments_of_tables {env : Env} {a : Archive}
    {mt : Option (List (String × Nat))} {at_ : Option (List (String × String))}
    (hm : a.modelTypes = .parsed mt) (ha : a.allTypes = .parsed at_) :
    loadFragments env a =
      match loadLoop env a mt at_ a.fileNames loopStart with
      | (st, some err) => ⟨st, some err⟩
      | (st, none) =>
        match readJson "levels-properties.json" a.levelsProperties (createStyles st) with
        | (st, .error err) => ⟨st, some err⟩
        | (st, .ok none) => ⟨st, some (.undefinedAccess "levelsProperties")⟩
        | (st, .ok (some levelsProperties)) =>
          match createLevels levelsProperties st with
          | (st, some err) => ⟨st, some err⟩
          | (st, none) => ⟨createExit st, none⟩ := by
  simp [loadFragments, readJson, hm, ha, loopStart]

/-- Every run ends in one of two ways: within the loading phase, with an
error, or after it, in a state given by the state the loop ended in. -/
theorem loadFragments_cases (env : Env) (a : Archive) :
    ((loadFragments env a).error ≠ none ∧ WeakInv a (loadFragments env a).state ∧
      ((a.modelTypes = .missing ∨ a.modelTypes = .malformed ∨
        a.allTypes = .missing ∨ a.allTypes = .malformed) →
        loads (loadFragments env a).state.steps = [])) ∨
    ∃ mt at_ st, LoopDone env a mt at_ st ∧
      ((a.levelsProperties = .missing ∧
          loadFragments env a
            = ⟨{ st with steps := st.steps ++ styleSteps st },
               some (.typeError "levels-properties.json")⟩) ∨
       (a.levelsProperties = .malformed ∧
          loadFragments env a
            = ⟨{ st with steps := st.steps ++ styleSteps st
                                    ++ [.json "levels-properties.json"] },
               some (.syntaxError "levels-properties.json")⟩) ∨
       (a.levelsProperties = .parsed none ∧
          loadFragments env a
            = ⟨{ st with steps := st.steps ++ styleSteps st
                                    ++ [.json "levels-properties.json"] },
               some (.undefinedAccess "levelsProperties")⟩) ∨
       (∃ entries done what, a.levelsProperties = .parsed (some entries) ∧
          loadFragments env a
            = ⟨{ st with steps := st.steps ++ styleSteps st
                                    ++ [.json "levels-properties.json"]
                                    ++ levelsSteps done },
               some (.undefinedAccess what)⟩) ∨
       (∃ levels, a.levelsProperties = .parsed (some (levels.map LevelEntry.level)) ∧
          loadFragments env a
            = ⟨{ st with steps := st.steps ++ uiSteps st levels }, none⟩)) := by
  cases hm : a.modelTypes with
  | missing =>
    left
    refine ⟨by simp [loadFragments, readJson, hm], ?_, ?_⟩
    · simpa [loadFragments, readJson, hm] using WeakInv.initial a
    · intro _; simp [loadFragments, readJson, hm, LoadState.initial, loads]
  | malformed =>
    left
    refine ⟨by simp [loadFragments, readJson, hm], ?_, ?_⟩
    · simpa [loadFragments, readJson, hm] using
        (WeakInv.initial a).emit_read _ (Or.inr ⟨_, rfl⟩)
    · intro _; simp [loadFragments, readJson, hm, LoadState.initial, LoadState.emit, loads]
  | parsed mt =>
    cases ha : a.allTypes with
    | missing =>
      left
      refine ⟨by simp [loadFragments, readJson, hm, ha], ?_, ?_⟩
      · simpa [loadFragments, readJson, hm, ha] using
          (WeakInv.initial a).emit_read _ (Or.inr ⟨_, rfl⟩)
      · intro _
        simp [loadFragments, readJson, hm, ha, LoadState.initial, LoadState.emit, loads]
    | malformed =>
      left
      refine ⟨by simp [loadFragments, readJson, hm, ha], ?_, ?_⟩
      · simpa [loadFragments, readJson, hm, ha] using
          ((WeakInv.initial a).emit_read _ (Or.inr ⟨_, rfl⟩)).emit_read _ (Or.inr ⟨_, rfl⟩)
      · intro _
        simp [loadFragments, readJson, hm, ha, LoadState.initial, LoadState.emit, loads]
    | parsed at_ =>
      have hrun := @loadFragments_of_tables env _ _ _ hm ha
      cases hl : loadLoop env a mt at_ a.fileNames loopStart with
      | mk st err =>
        cases err with
        | some err =>
          left
          have hinv := (LoopInv.loadLoop env mt at_ a.fileNames loopStart
            (LoopInv.loopStart a)).1
          rw [hl] at hinv
          rw [hrun, hl]
          refine ⟨by simp, hinv, ?_⟩
          intro h
          rcases h with h | h | h | h <;> cases h
        | none =>
          right
          refine ⟨mt, at_, st, loopDone_of_loop hm ha hl, ?_⟩
          rw [hrun, hl]
          cases hv : a.levelsProperties with
          | missing =>
            simp [readJson, createStyles, LoadState.emit, styleSteps]
          | malformed =>
            simp [readJson, createStyles, LoadState.emit, styleSteps]
          | parsed v =>
            cases v with
            | none =>
              simp [readJson, createStyles, LoadState.emit, styleSteps]
            | some entries =>
              right; right; right
              obtain ⟨done, h1, h2, h3⟩ := createLevels_spec entries
                ((createStyles st).emit (.json "levels-properties.json"))
              cases hres : createLevels entries
                  ((createStyles st).emit (.json "levels-properties.json")) with
              | mk st2 err2 =>
                rw [hres] at h1 h2 h3
                simp only at h1 h2 h3
                cases err2 with
                | some err2 =>
                  left
                  obtain ⟨what, hw⟩ := h3 err2 rfl
                  refine ⟨entries, done, what, rfl, ?_⟩
                  simp only [readJson, hres]
                  rw [h1, hw]
                  simp [createStyles, LoadState.emit, styleSteps]
                | none =>
                  right
                  refine ⟨done, by rw [h2 rfl], ?_⟩
                  simp only [readJson, hres]
                  rw [h1]
                  simp [createStyles, LoadState.emit, styleSteps, createExit, uiSteps,
                    exitSteps]

theorem uiSteps_eq (st : LoadState) (levels : List LevelProps) :
    uiSteps st levels = styleSteps st ++ tailSteps levels := by
  simp [uiSteps, tailSteps]

theorem classifies_levelsSteps (levels : List LevelProps) :
    ∀ s ∈ levelsSteps levels, s.classifies = false := by
  induction levels with
  | nil => simp [levelsSteps]
  | cons l rest ih =>
    intro s hs
    simp only [levelsSteps, levelSteps, List.mem_append, List.mem_cons,
      List.mem_singleton, List.not_mem_nil, or_false] at hs
    rcases hs with (rfl | rfl | rfl) | hs
    · rfl
    · rfl
    · rfl
    · exact ih s hs

theorem classifies_tailSteps (levels : List LevelProps) :
    ∀ s ∈ tailSteps levels, s.classifies = false := by
  intro s hs
  simp only [tailSteps, exitSteps, List.mem_append, List.mem_cons, List.mem_singleton,
    List.not_mem_nil, or_false] at hs
  rcases hs with (rfl | hs) | rfl | rfl
  · rfl
  · exact classifies_levelsSteps levels s hs
  · rfl
  · rfl

theorem classifies_styleSteps (st : LoadState) :
    ∀ s ∈ styleSteps st, s.classifies = false := by
  intro s hs
  simp only [styleSteps, List.mem_cons, List.mem_singleton, List.not_mem_nil, or_false] at hs
  rcases hs with rfl | rfl | rfl <;> rfl

theorem loads_eq_nil {xs : List Step} (h : ∀ s ∈ xs, s.classifies = false) : loads xs = [] := by
  induction xs with
  | nil => rfl
  | cons x rest ih =>
    have hx := h x (List.mem_cons_self _ _)
    have hr := ih (fun s hs => h s (List.mem_cons_of_mem _ hs))
    cases x <;> simp_all [loads, Step.classifies]

/-- Every run either ends with an error inside the loading phase, or goes
through the whole loop and the two styles and then some way into the rest. -/
theorem loadFragments_shape (env : Env) (a : Archive) :
    ((loadFragments env a).error ≠ none ∧ WeakInv a (loadFragments env a).state) ∨
    ∃ mt at_ st levels U, LoopDone env a mt at_ st ∧ U <+: tailSteps levels ∧
      (loadFragments env a).state = { st with steps := st.steps ++ styleSteps st ++ U } ∧
      ((loadFragments env a).error = none →
        a.levelsProperties = .parsed (some (levels.map LevelEntry.level)) ∧
        U = tailSteps levels) := by
  rcases loadFragments_cases env a with ⟨h1, h2, _⟩ | ⟨mt, at_, st, hd, h⟩
  · exact Or.inl ⟨h1, h2⟩
  · right
    rcases h with ⟨_, h⟩ | ⟨_, h⟩ | ⟨_, h⟩ | ⟨entries, done, what, _, h⟩ | ⟨levels, hl, h⟩
    · exact ⟨mt, at_, st, [], [], hd, List.nil_prefix, by simp [h], by simp [h]⟩
    · refine ⟨mt, at_, st, [], [.json "levels-properties.json"], hd, ?_, by simp [h],
        by simp [h]⟩
      simp [tailSteps, levelsSteps, exitSteps]
    · refine ⟨mt, at_, st, [], [.json "levels-properties.json"], hd, ?_, by simp [h],
        by simp [h]⟩
      simp [tailSteps, levelsSteps, exitSteps]
    · refine ⟨mt, at_, st, done, [.json "levels-properties.json"] ++ levelsSteps done, hd,
        ?_, by simp [h], by simp [h]⟩
      exact ⟨exitSteps, by simp [tailSteps]⟩
    · exact ⟨mt, at_, st, levels, tailSteps levels, hd, List.prefix_refl _,
        by simp [h, uiSteps_eq], fun _ => ⟨hl, rfl⟩⟩

theorem initClippingEdges_not_mem {a : Archive} {st : LoadState} (h : WeakInv a st) :
    Step.initClippingEdges ∉ st.steps := by
  intro hm
  have := h.phase _ hm
  simp [Step.loadPhase] at this

/-- C1, as stated, fails twice.  In an archive that lists `a.glb` without its
metadata entry, one name contains `.glb` and no fragment is loaded, and the two
lists together hold no mesh.  In an archive whose `a.json` is an object without
`ids`, the fragment of `a.glb` is loaded and line 110 throws before its mesh is
pushed: one fragment is loaded and the two lists are empty. -/
theorem loadFragments_every_archive_counterexample :
    (missingPairArchive.fileNames.filter (fun name => includes name ".glb") = ["a.glb"] ∧
      loads (loadFragments sampleEnv missingPairArchive).state.steps = [] ∧
      (loadFragments sampleEnv missingPairArchive).state.thickItems.length
        + (loadFragments sampleEnv missingPairArchive).state.thinItems.length = 0 ∧
      (loadFragments sampleEnv missingPairArchive).error = some (.typeError "a.json")) ∧
    (noIdsArchive.fileNames.filter (fun name => includes name ".glb") = ["a.glb"] ∧
      loads (loadFragments sampleEnv noIdsArchive).state.steps = [("a.glb", "a.json", 0)] ∧
      (loadFragments sampleEnv noIdsArchive).state.thickItems = [] ∧
      (loadFragments sampleEnv noIdsArchive).state.thinItems = [] ∧
      (loadFragments sampleEnv noIdsArchive).error = some (.undefinedAccess "ids")) := by
  decide

/-- C1, amended: when the loading loop of `loadFragments` runs to its end (the
call of `ClippingEdges.initialize` is reached), exactly one fragment has been
loaded per name containing `.glb`, in listing order, and none for another
name; the loaded meshes are pairwise distinct, `thickItems` and `thinItems`
are disjoint order-preserving sublists of them that together hold every loaded
mesh, and their lengths add up to the number of names containing `.glb`. -/
theorem loadFragments_loads (env : Env) (a : Archive)
    (h : Step.initClippingEdges ∈ (loadFragments env a).state.steps) :
    (loads (loadFragments env a).state.steps).map (fun x => x.1)
      = a.fileNames.filter (fun name => includes name ".glb") ∧
    ((loads (loadFragments env a).state.steps).map (fun x => x.2.2)).Nodup ∧
    (loadFragments env a).state.thickItems.Sublist
      ((loads (loadFragments env a).state.steps).map (fun x => x.2.2)) ∧
    (loadFragments env a).state.thinItems.Sublist
      ((loads (loadFragments env a).state.steps).map (fun x => x.2.2)) ∧
    List.Disjoint (loadFragments env a).state.thickItems
      (loadFragments env a).state.thinItems ∧
    (∀ m ∈ (loads (loadFragments env a).state.steps).map (fun x => x.2.2),
      m ∈ (loadFragments env a).state.thickItems ∨
      m ∈ (loadFragments env a).state.thinItems) ∧
    (loadFragments env a).state.thickItems.length
      + (loadFragments env a).state.thinItems.length
      = (a.fileNames.filter (fun name => includes name ".glb")).length := by
  rcases loadFragments_shape env a with ⟨_, hinv⟩ | ⟨mt, at_, st, levels, U, hd, hU, hst, _⟩
  · exact absurd h (initClippingEdges_not_mem hinv)
  · have hl : loads (loadFragments env a).state.steps = loads st.steps := by
      rw [hst]
      simp only [loads_append]
      rw [loads_eq_nil (classifies_styleSteps st),
        loads_eq_nil (fun s hs => classifies_tailSteps levels s (hU.subset hs))]
      simp
    obtain ⟨c, hc1, hc2⟩ := hd.inv.classes
    have hids := hd.inv.ids
    have hlen : (glbNames a.fileNames).length = st.loaded := by
      rw [← hd.names, List.length_map]
      have := congrArg List.length hids
      simpa using this
    rw [hl, hids, hst]
    simp only
    refine ⟨hd.names, List.nodup_range _, ?_, ?_, ?_, ?_, ?_⟩
    · rw [hc1]; exact List.filter_sublist _
    · rw [hc2]; exact List.filter_sublist _
    · rw [hc1, hc2]
      intro m h1 h2
      simp only [List.mem_filter] at h1 h2
      simp [h1.2] at h2
    · intro m hm
      rw [hc1, hc2]
      simp only [List.mem_filter, hm, true_and]
      cases c m <;> simp
    · rw [hc1, hc2]
      have := List.length_eq_length_filter_add (l := List.range st.loaded) c
      simp only [List.length_range] at this
      change _ = (glbNames a.fileNames).length
      rw [hlen]
      omega

/-- The amended C1 applies to the sample archive, whose loop runs to its
end. -/
theorem loadFragments_loads_witness :
    Step.initClippingEdges ∈ (loadFragments sampleEnv sampleArchive).state.steps ∧
    (loads (loadFragments sampleEnv sampleArchive).state.steps).map (fun x => x.1)
      = sampleArchive.fileNames.filter (fun name => includes name ".glb") :=
  ⟨by decide, (loadFragments_loads sampleEnv sampleArchive (by decide)).1⟩

theorem isThick_iff (cat : Option String) :
    isThick cat = true ↔
      ∃ c, cat = some c ∧
        c ∈ ["IFCWALL", "IFCWALLSTANDARDCASE", "IFCSLAB", "IFCSTAIRFLIGHT", "IFCSTAIR",
             "IFCROOF", "IFCFOOTING", "IFCCOLUMN", "IFCBEAM"] := by
  cases cat with
  | none => simp [isThick]
  | some c => simp [isThick, thickTypes]

/-- C2, as stated, fails twice.  With `model-types.json` the table
`{"undefined": 1}`, `all-types.json` the table `{"1": "IFCWALL"}` and a
metadata whose `ids` is empty, the lookup with `undefined` reads the key
`undefined`, and the mesh of the loaded fragment goes to `thickItems`; the same
happens for the id 5 without entry in an empty `model-types.json` when
`all-types.json` is `{"undefined": "IFCWALL"}`.  And a fragment whose metadata
has no `ids` is loaded and its mesh goes to neither list: line 110 throws. -/
theorem loopBody_classifies_counterexample :
    ((loopBody sampleEnv { sampleArchive with fragmentData := fun _ => .parsed (some []) }
        (some [("undefined", 1)]) (some [("1", "IFCWALL")]) "a.glb" loopStart).1.thickItems
        = [0] ∧
      (loopBody sampleEnv { sampleArchive with fragmentData := fun _ => .parsed (some []) }
        (some [("undefined", 1)]) (some [("1", "IFCWALL")]) "a.glb" loopStart).1.thinItems
        = []) ∧
    ((loopBody sampleEnv { sampleArchive with fragmentData := fun _ => .parsed (some [5]) }
        (some []) (some [("undefined", "IFCWALL")]) "a.glb" loopStart).1.thickItems
        = [0]) ∧
    (loads (loopBody sampleEnv { sampleArchive with fragmentData := fun _ => .parsed none }
        (some [("10", 1)]) (some [("1", "IFCWALL")]) "a.glb" loopStart).1.steps
        = [("a.glb", "a.json", 0)] ∧
      (loopBody sampleEnv { sampleArchive with fragmentData := fun _ => .parsed none }
        (some [("10", 1)]) (some [("1", "IFCWALL")]) "a.glb" loopStart).1.thickItems = [] ∧
      (loopBody sampleEnv { sampleArchive with fragmentData := fun _ => .parsed none }
        (some [("10", 1)]) (some [("1", "IFCWALL")]) "a.glb" loopStart).1.thinItems = [] ∧
      (loopBody sampleEnv { sampleArchive with fragmentData := fun _ => .parsed none }
        (some [("10", 1)]) (some [("1", "IFCWALL")]) "a.glb" loopStart).2
        = some (.undefinedAccess "ids")) := by
  decide

/-- C2, amended: in the turn of the loop for a name containing `.glb` whose
metadata has the array `ids`, with neither table `null`, the fragment is loaded
and its mesh goes to `thickItems` and not to `thinItems` when
`allTypes[modelTypes[ids[0]]]` is one of the nine thick type names, and to
`thinItems` and not to `thickItems` in every other case, where a lookup with
`undefined` reads the key `undefined`.  So the mesh is thin when `ids` is empty
or its first id has no entry in `modelTypes`, if `allTypes` has no key
`undefined` and, for an empty `ids`, `modelTypes` has none either; and it is
thin when the type id found has no entry in `allTypes`.  A metadata with the
same first id is classified alike: ids after the first play no part. -/
theorem loopBody_classifies (env : Env) (a : Archive) (modelTypes : List (String × Nat))
    (allTypes : List (String × String)) (name : String) (ids : List Nat) (st : LoadState)
    (hinc : includes name ".glb" = true)
    (hd : a.fragmentData (dataName name) = .parsed (some ids)) :
    (loopBody env a (some modelTypes) (some allTypes) name st).2 = none ∧
    Step.load name (dataName name) st.loaded
      ∈ (loopBody env a (some modelTypes) (some allTypes) name st).1.steps ∧
    ((∃ c, allTypes.lookup (propertyKey (modelTypes.lookup (propertyKey ids.head?)))
              = some c ∧
        c ∈ ["IFCWALL", "IFCWALLSTANDARDCASE", "IFCSLAB", "IFCSTAIRFLIGHT", "IFCSTAIR",
             "IFCROOF", "IFCFOOTING", "IFCCOLUMN", "IFCBEAM"]) →
      (loopBody env a (some modelTypes) (some allTypes) name st).1.thickItems
        = st.thickItems ++ [st.loaded] ∧
      (loopBody env a (some modelTypes) (some allTypes) name st).1.thinItems
        = st.thinItems) ∧
    ((¬ ∃ c, allTypes.lookup (propertyKey (modelTypes.lookup (propertyKey ids.head?)))
              = some c ∧
        c ∈ ["IFCWALL", "IFCWALLSTANDARDCASE", "IFCSLAB", "IFCSTAIRFLIGHT", "IFCSTAIR",
             "IFCROOF", "IFCFOOTING", "IFCCOLUMN", "IFCBEAM"]) →
      (loopBody env a (some modelTypes) (some allTypes) name st).1.thickItems
        = st.thickItems ∧
      (loopBody env a (some modelTypes) (some allTypes) name st).1.thinItems
        = st.thinItems ++ [st.loaded]) ∧
    (((ids = [] ∧ modelTypes.lookup "undefined" = none ∧
          allTypes.lookup "undefined" = none) ∨
      (∃ id rest, ids = id :: rest ∧ modelTypes.lookup (toString id) = none ∧
          allTypes.lookup "undefined" = none) ∨
      (∃ t, modelTypes.lookup (propertyKey ids.head?) = some t ∧
          allTypes.lookup (toString t) = none)) →
      (loopBody env a (some modelTypes) (some allTypes) name st).1.thickItems
        = st.thickItems ∧
      (loopBody env a (some modelTypes) (some allTypes) name st).1.thinItems
        = st.thinItems ++ [st.loaded]) ∧
    (∀ (b : Archive) (ids' : List Nat),
      b.fragmentData (dataName name) = .parsed (some ids') → ids'.head? = ids.head? →
      (loopBody env b (some modelTypes) (some allTypes) name st).1.thickItems
        = (loopBody env a (some modelTypes) (some allTypes) name st).1.thickItems ∧
      (loopBody env b (some modelTypes) (some allTypes) name st).1.thinItems
        = (loopBody env a (some modelTypes) (some allTypes) name st).1.thinItems) := by
  have hb' : ∀ (b : Archive) (ids' : List Nat),
      b.fragmentData (dataName name) = .parsed (some ids') →
      loopBody env b (some modelTypes) (some allTypes) name st
        = (afterPair env name (dataName name)
            (isThick (category modelTypes allTypes ids')) st, none) := by
    intro b ids' hd'
    unfold loopBody
    simp only [hinc, Bool.not_true, Bool.false_eq_true, if_false]
    exact loadPair_ok _ _ _ _ _ _ _ _ _ hd' rfl
  have hb := hb' a ids hd
  have hcat : category modelTypes allTypes ids
      = allTypes.lookup (propertyKey (modelTypes.lookup (propertyKey ids.head?))) := rfl
  rw [hb]
  refine ⟨rfl, by simp [afterPair], ?_, ?_, ?_, ?_⟩
  · intro h
    have ht : isThick (category modelTypes allTypes ids) = true := by
      rw [isThick_iff, hcat]; exact h
    simp [afterPair, ht]
  · intro h
    have ht : isThick (category modelTypes allTypes ids) = false := by
      rw [← Bool.not_eq_true, isThick_iff, hcat]; exact h
    simp [afterPair, ht]
  · intro h
    have ht : isThick (category modelTypes allTypes ids) = false := by
      rcases h with ⟨rfl, h1, h2⟩ | ⟨id, rest, rfl, h1, h2⟩ | ⟨t, h1, h2⟩
      · simp [category, propertyKey, h1, h2, isThick]
      · simp [category, propertyKey, h1, h2, isThick]
      · rw [hcat, h1]
        change isThick (allTypes.lookup (toString t)) = false
        rw [h2]
        rfl
    simp [afterPair, ht]
  · intro b ids' hd' hhead
    rw [hb' b ids' hd']
    simp [afterPair, category, hhead]

/-- The amended C2 applies to the first fragment of the sample archive, a
wall. -/
theorem loopBody_classifies_witness :
    includes "a.glb" ".glb" = true ∧
    sampleArchive.fragmentData (dataName "a.glb") = .parsed (some [10]) ∧
    (loopBody sampleEnv sampleArchive (some [("10", 1), ("20", 2)])
      (some [("1", "IFCWALL"), ("2", "IFCDOOR")]) "a.glb" loopStart).1.thickItems = [0] :=
  ⟨by decide, by decide,
    ((loopBody_classifies sampleEnv sampleArchive [("10", 1), ("20", 2)]
      [("1", "IFCWALL"), ("2", "IFCDOOR")] "a.glb" [10] loopStart (by decide)
      (by decide)).2.2.1 ⟨"IFCWALL", by decide, by decide⟩).1⟩

theorem includes_append_glb (base : String) (h : includes base ".glb" = false) :
    includes (base ++ ".glb") ".glb" = true := by
  rw [includes_glb_true, String.data_append, glb_data]
  exact ⟨_, indexOfChars_append_glb base.data (includes_glb_false.mp h)⟩

/-- C3: for a name `base + ".glb"` whose `base` does not contain `.glb`, the
metadata name computed is `base + ".json"`, and the turn of the loop for that
name is the loading of the pair `base + ".glb"`, `base + ".json"`: the entry
whose `blob()` and `json()` it reads is the one of that name. -/
theorem loopBody_reads_json (base : String) (h : includes base ".glb" = false) :
    dataName (base ++ ".glb") = base ++ ".json" ∧
    ∀ (env : Env) (a : Archive) (modelTypes : Option (List (String × Nat)))
      (allTypes : Option (List (String × String))) (st : LoadState),
      loopBody env a modelTypes allTypes (base ++ ".glb") st
        = loadPair env a modelTypes allTypes (base ++ ".glb") (base ++ ".json") st := by
  refine ⟨dataName_append_glb base h, ?_⟩
  intro env a modelTypes allTypes st
  unfold loopBody
  rw [includes_append_glb base h, dataName_append_glb base h]
  simp

/-- C3 applies to the entry `a.glb`. -/
theorem loopBody_reads_json_witness :
    includes "a" ".glb" = false ∧ dataName ("a" ++ ".glb") = "a" ++ ".json" :=
  ⟨by decide, (loopBody_reads_json "a" (by decide)).1⟩

/-- C10: for a name containing `.glb`, the metadata name is the part of the
name before the first occurrence of `.glb`, followed by `.json`; it does not
contain `.glb`, so it is not the geometry name, and the turn of the loop for
it, should the archive list it, loads nothing. -/
theorem dataName_spec (name : String) (h : includes name ".glb" = true) :
    (∃ pre post : String, name = pre ++ ".glb" ++ post ∧
      (∀ pre' post' : String, name = pre' ++ ".glb" ++ post' → pre.length ≤ pre'.length) ∧
      dataName name = pre ++ ".json") ∧
    includes (dataName name) ".glb" = false ∧
    dataName name ≠ name ∧
    ∀ (env : Env) (a : Archive) (modelTypes : Option (List (String × Nat)))
      (allTypes : Option (List (String × String))) (st : LoadState),
      loopBody env a modelTypes allTypes (dataName name) st = (st, none) := by
  have hnot := includes_dataName name h
  obtain ⟨i, hi⟩ := includes_glb_true.mp h
  obtain ⟨hle, ⟨t, ht⟩, hmin⟩ := indexOfChars_some hi
  refine ⟨⟨String.mk (name.data.take i), String.mk t, ?_, ?_, dataName_of_index hi⟩,
    hnot, ?_, ?_⟩
  · apply String.ext
    rw [String.data_append, String.data_append, glb_data, List.append_assoc, ht]
    simp
  · intro pre' post' hp
    have hdata : name.data = pre'.data ++ (glb ++ post'.data) := by
      rw [hp, String.data_append, String.data_append, glb_data, List.append_assoc]
    have hlen : (String.mk (name.data.take i)).length = i := by
      change (name.data.take i).length = i
      rw [List.length_take]
      exact min_eq_left hle
    rw [hlen]
    by_contra hlt
    have hlt : pre'.data.length < i := by
      have e : pre'.length = pre'.data.length := rfl
      omega
    refine hmin _ hlt ?_
    rw [hdata, List.drop_left]
    exact List.prefix_append _ _
  · intro heq
    rw [heq, h] at hnot
    cases hnot
  · intro env a modelTypes allTypes st
    unfold loopBody
    simp [hnot]

/-- C10 applies to a name with `.glb` in the middle. -/
theorem dataName_spec_witness :
    includes "wall.glb.bak" ".glb" = true ∧ includes (dataName "wall.glb.bak") ".glb" = false :=
  ⟨by decide, (dataName_spec "wall.glb.bak" (by decide)).2.1⟩

theorem navigation_nil {xs : List Step} (h : ∀ s ∈ xs, s.navigation = false) :
    plans xs = [] ∧ buttons xs = [] ∧ handlers xs = [] := by
  induction xs with
  | nil => exact ⟨rfl, rfl, rfl⟩
  | cons x rest ih =>
    have hx := h x (List.mem_cons_self _ _)
    obtain ⟨h1, h2, h3⟩ := ih (fun s hs => h s (List.mem_cons_of_mem _ hs))
    simp only [plans, buttons, handlers] at h1 h2 h3 ⊢
    cases x <;> simp_all [Step.navigation]

theorem loadPhase_not_navigation {s : Step} (h : s.loadPhase = true) :
    s.navigation = false ∧ s.style = false := by
  cases s <;> simp_all [Step.loadPhase, Step.navigation, Step.style]

theorem loadLoop_syntaxError (env : Env) (a : Archive) (mt : Option (List (String × Nat)))
    (at_ : Option (List (String × String))) (names : List String) (n : String) :
    ∀ st, (loadLoop env a mt at_ names st).2 = some (.syntaxError n) →
      (loadLoop env a mt at_ names st).1.steps.getLast? = some (.json n) := by
  induction names with
  | nil => intro st h; simp [loadLoop] at h
  | cons g rest ih =>
    intro st h
    unfold loadLoop at h ⊢
    split at h
    · rename_i st1 err1 heq
      simp only [Option.some.injEq] at h
      subst h
      unfold loopBody at heq
      cases hi : includes g ".glb"
      · simp [hi] at heq
      · simp only [hi, Bool.not_true, Bool.false_eq_true, if_false] at heq
        cases hd : a.fragmentData (dataName g) with
        | missing =>
          rw [loadPair_missing _ _ _ _ _ _ _ hd] at heq
          cases heq
        | malformed =>
          rw [loadPair_malformed _ _ _ _ _ _ _ hd] at heq
          cases heq
          simp [LoadState.emit]
        | parsed data =>
          cases hc : classification data mt at_ with
          | error err =>
            rw [loadPair_throw _ _ _ _ _ _ _ _ _ hd hc] at heq
            obtain ⟨what, hw⟩ := classification_error _ _ _ _ hc
            subst hw
            cases heq
          | ok thick =>
            rw [loadPair_ok _ _ _ _ _ _ _ _ _ hd hc] at heq
            cases heq
    · rename_i st1 heq
      exact ih st1 h

theorem loadFragments_syntaxError (env : Env) (a : Archive) (n : String)
    (h : (loadFragments env a).error = some (.syntaxError n)) :
    (loadFragments env a).state.steps.getLast? = some (.json n) := by
  cases hm : a.modelTypes with
  | missing => simp [loadFragments, readJson, hm] at h
  | malformed =>
    simp only [loadFragments, readJson, hm, Option.some.injEq, Error.syntaxError.injEq] at h ⊢
    subst h
    simp [LoadState.emit]
  | parsed mt =>
    cases ha : a.allTypes with
    | missing => simp [loadFragments, readJson, hm, ha] at h
    | malformed =>
      simp only [loadFragments, readJson, hm, ha, Option.some.injEq,
        Error.syntaxError.injEq] at h ⊢
      subst h
      simp [LoadState.emit]
    | parsed at_ =>
      rcases loadFragments_cases env a with ⟨_, _, _⟩ | ⟨mt', at', st, hd, hc⟩
      · have hrun := @loadFragments_of_tables env _ _ _ hm ha
        rw [hrun] at h ⊢
        cases hl : loadLoop env a mt at_ a.fileNames loopStart with
        | mk st err =>
          cases err with
          | some err =>
            rw [hl] at h
            simp only [Option.some.injEq] at h
            subst h
            have := loadLoop_syntaxError env a mt at_ a.fileNames n loopStart (by rw [hl])
            rw [hl] at this
            exact this
          | none =>
            rw [hl] at h
            cases hv : a.levelsProperties with
            | missing => simp [readJson, hv] at h
            | malformed =>
              simp only [readJson, hv, Option.some.injEq, Error.syntaxError.injEq] at h ⊢
              subst h
              simp [LoadState.emit]
            | parsed v =>
              exfalso
              cases v with
              | none => simp [readJson, hv] at h
              | some entries =>
                simp only [readJson, hv] at h
                obtain ⟨done, _, _, h3⟩ := createLevels_spec entries
                  ((createStyles st).emit (.json "levels-properties.json"))
                cases hres : createLevels entries
                    ((createStyles st).emit (.json "levels-properties.json")) with
                | mk st2 err2 =>
                  rw [hres] at h h3
                  cases err2 with
                  | none => simp at h
                  | some err2 =>
                    simp only [Option.some.injEq] at h
                    obtain ⟨what, hw⟩ := h3 err2 rfl
                    rw [hw] at h
                    cases h
      · rcases hc with ⟨_, hr⟩ | ⟨_, hr⟩ | ⟨_, hr⟩ | ⟨_, _, _, _, hr⟩ | ⟨_, _, hr⟩
        · rw [hr] at h; cases h
        · rw [hr] at h ⊢
          simp only [Option.some.injEq, Error.syntaxError.injEq] at h
          subst h
          simp
        · rw [hr] at h; cases h
        · rw [hr] at h; cases h
        · rw [hr] at h; cases h

/-- C4: when `model-types.json`, `all-types.json`, `levels-properties.json` or
the metadata entry paired with a listed name containing `.glb` is missing or is
not JSON, `loadFragments` ends with an error, and so does the page, which calls
it bare; no plan is created, no button appended and no handler installed; when
the defect is in a table or in a metadata entry no style is created either, and
when it is in a table no fragment is loaded; a fragment is never loaded from a
defective metadata entry, and a rejected `json()` call is the last step made. -/
theorem main_fails (env : Env) (a : Archive)
    (h : (a.modelTypes = .missing ∨ a.modelTypes = .malformed ∨
          a.allTypes = .missing ∨ a.allTypes = .malformed) ∨
         (∃ name ∈ a.fileNames, includes name ".glb" = true ∧
            (a.fragmentData (dataName name) = .missing ∨
             a.fragmentData (dataName name) = .malformed)) ∨
         (a.levelsProperties = .missing ∨ a.levelsProperties = .malformed)) :
    (loadFragments env a).error ≠ none ∧
    main env a = loadFragments env a ∧
    plans (loadFragments env a).state.steps = [] ∧
    buttons (loadFragments env a).state.steps = [] ∧
    handlers (loadFragments env a).state.steps = [] ∧
    (((a.modelTypes = .missing ∨ a.modelTypes = .malformed ∨
          a.allTypes = .missing ∨ a.allTypes = .malformed) ∨
       (∃ name ∈ a.fileNames, includes name ".glb" = true ∧
            (a.fragmentData (dataName name) = .missing ∨
             a.fragmentData (dataName name) = .malformed))) →
      ∀ s ∈ (loadFragments env a).state.steps, s.style = false) ∧
    ((a.modelTypes = .missing ∨ a.modelTypes = .malformed ∨
        a.allTypes = .missing ∨ a.allTypes = .malformed) →
      loads (loadFragments env a).state.steps = []) ∧
    (∀ x ∈ loads (loadFragments env a).state.steps,
      ∃ data, a.fragmentData x.2.1 = .parsed data) ∧
    (∀ n, (loadFragments env a).error = some (.syntaxError n) →
      (loadFragments env a).state.steps.getLast? = some (.json n)) := by
  have hlast := loadFragments_syntaxError env a
  rcases loadFragments_cases env a with ⟨h1, h2, h4⟩ | ⟨mt, at_, st, hd, hc⟩
  · obtain ⟨p1, p2, p3⟩ := navigation_nil
      (fun s hs => (loadPhase_not_navigation (h2.phase s hs)).1)
    exact ⟨h1, rfl, p1, p2, p3, fun _ s hs => (loadPhase_not_navigation (h2.phase s hs)).2,
      h4, fun x hx => (h2.pairs x hx).2, hlast⟩
  · have hnav : ∀ s ∈ st.steps ++ styleSteps st ++ [Step.json "levels-properties.json"],
        s.navigation = false := by
      intro s hs
      simp only [styleSteps, List.mem_append, List.mem_cons, List.mem_singleton,
        List.not_mem_nil, or_false] at hs
      rcases hs with (hs | rfl | rfl | rfl) | rfl
      · exact (loadPhase_not_navigation (hd.inv.phase s hs)).1
      all_goals rfl
    have hloads : ∀ U : List Step, (∀ s ∈ U, s.classifies = false) →
        loads (st.steps ++ styleSteps st ++ U) = loads st.steps := by
      intro U hU
      rw [loads_append, loads_append, loads_eq_nil (classifies_styleSteps st), loads_eq_nil hU]
      simp
    have hfrag : ¬ ∃ name ∈ a.fileNames, includes name ".glb" = true ∧
        (a.fragmentData (dataName name) = .missing ∨
         a.fragmentData (dataName name) = .malformed) := by
      rintro ⟨name, hmem, hinc, hdef⟩
      exact loadLoop_error env a mt at_ a.fileNames name hmem hinc hdef loopStart
        (by rw [hd.loop])
    have htab : ¬ (a.modelTypes = .missing ∨ a.modelTypes = .malformed ∨
        a.allTypes = .missing ∨ a.allTypes = .malformed) := by
      rw [hd.modelTypes, hd.allTypes]
      simp
    have hparsed : ∀ v, a.levelsProperties = .parsed v → False := by
      intro v hl
      rcases h with ht | hf | hv
      · exact htab ht
      · exact hfrag hf
      · rw [hl] at hv
        simp at hv
    rcases hc with ⟨_, hr⟩ | ⟨_, hr⟩ | ⟨hl, _⟩ | ⟨_, _, _, hl, _⟩ | ⟨_, hl, _⟩
    · obtain ⟨p1, p2, p3⟩ := navigation_nil
        (fun s hs => hnav s (List.mem_append_left _ hs))
      rw [hr] at hlast ⊢
      refine ⟨by simp, ?_, p1, p2, p3, ?_, fun ht => absurd ht htab, ?_, hlast⟩
      · rw [main, hr]
      · rintro (ht | hf)
        · exact absurd ht htab
        · exact absurd hf hfrag
      · have := hloads [] (by simp)
        simp only [List.append_nil] at this
        simp only [this]
        exact fun x hx => (hd.inv.pairs x hx).2
    · obtain ⟨p1, p2, p3⟩ := navigation_nil hnav
      rw [hr] at hlast ⊢
      refine ⟨by simp, ?_, p1, p2, p3, ?_, fun ht => absurd ht htab, ?_, hlast⟩
      · rw [main, hr]
      · rintro (ht | hf)
        · exact absurd ht htab
        · exact absurd hf hfrag
      · have := hloads [Step.json "levels-properties.json"] (by simp [Step.classifies])
        simp only [this]
        exact fun x hx => (hd.inv.pairs x hx).2
    · exact (hparsed _ hl).elim
    · exact (hparsed _ hl).elim
    · exact (hparsed _ hl).elim

/-- C4 applies to the archive whose `a.json` is missing. -/
theorem main_fails_witness :
    (∃ name ∈ missingPairArchive.fileNames, includes name ".glb" = true ∧
      (missingPairArchive.fragmentData (dataName name) = .missing ∨
       missingPairArchive.fragmentData (dataName name) = .malformed)) ∧
    (loadFragments sampleEnv missingPairArchive).error ≠ none :=
  ⟨⟨"a.glb", by decide, by decide, Or.inl rfl⟩,
   (main_fails sampleEnv missingPairArchive
      (Or.inr (Or.inl ⟨"a.glb", by decide, by decide, Or.inl rfl⟩))).1⟩

theorem plans_append (xs ys : List Step) : plans (xs ++ ys) = plans xs ++ plans ys := by
  simp [plans, List.filterMap_append]

theorem buttons_append (xs ys : List Step) :
    buttons (xs ++ ys) = buttons xs ++ buttons ys := by
  simp [buttons, List.filterMap_append]

theorem handlers_append (xs ys : List Step) :
    handlers (xs ++ ys) = handlers xs ++ handlers ys := by
  simp [handlers, List.filterMap_append]

theorem navigation_levelsSteps (levels : List LevelProps) :
    plans (levelsSteps levels) = levels.map planConfig ∧
    buttons (levelsSteps levels) = levels.map (fun l => l.Name) ∧
    handlers (levelsSteps levels) = levels.map Handler.level := by
  induction levels with
  | nil => exact ⟨rfl, rfl, rfl⟩
  | cons l rest ih =>
    obtain ⟨h1, h2, h3⟩ := ih
    simp only [levelsSteps, plans_append, buttons_append, handlers_append, h1, h2, h3,
      List.map_cons]
    exact ⟨rfl, rfl, rfl⟩

theorem navigation_uiSteps (st : LoadState) (levels : List LevelProps) :
    plans (uiSteps st levels) = levels.map planConfig ∧
    buttons (uiSteps st levels) = levels.map (fun l => l.Name) ++ ["Exit"] ∧
    handlers (uiSteps st levels) = levels.map Handler.level ++ [Handler.exit] := by
  obtain ⟨h1, h2, h3⟩ := navigation_levelsSteps levels
  simp only [uiSteps, plans_append, buttons_append, handlers_append, h1, h2, h3]
  refine ⟨?_, ?_, ?_⟩ <;> simp [plans, buttons, handlers, styleSteps, exitSteps]

theorem level_map_injective : Function.Injective (List.map LevelEntry.level) :=
  List.map_injective_iff.mpr (fun _ _ h => by cases h; rfl)

/-- A successful run, from the state in which its loading loop ended. -/
theorem loadFragments_success (env : Env) (a : Archive) (levels : List LevelProps)
    (hl : a.levelsProperties = .parsed (some (levels.map LevelEntry.level)))
    (h : (loadFragments env a).error = none) :
    ∃ mt at_ st, LoopDone env a mt at_ st ∧
      (loadFragments env a).state = { st with steps := st.steps ++ uiSteps st levels } := by
  rcases loadFragments_cases env a with ⟨h1, _⟩ | ⟨mt, at_, st, hd, hc⟩
  · exact absurd h h1
  · rcases hc with ⟨_, hr⟩ | ⟨_, hr⟩ | ⟨_, hr⟩ | ⟨_, _, _, _, hr⟩ | ⟨levels', hl', hr⟩
    · rw [hr] at h; cases h
    · rw [hr] at h; cases h
    · rw [hr] at h; cases h
    · rw [hr] at h; cases h
    · rw [hl] at hl'
      have e : levels = levels' := level_map_injective (by simpa using hl')
      subst e
      exact ⟨mt, at_, st, hd, by rw [hr]⟩

theorem navigation_success (env : Env) (a : Archive) (levels : List LevelProps)
    (hl : a.levelsProperties = .parsed (some (levels.map LevelEntry.level)))
    (h : (loadFragments env a).error = none) :
    plans (loadFragments env a).state.steps = levels.map planConfig ∧
    buttons (loadFragments env a).state.steps = levels.map (fun l => l.Name) ++ ["Exit"] ∧
    handlers (loadFragments env a).state.steps
      = levels.map Handler.level ++ [Handler.exit] := by
  obtain ⟨mt, at_, st, hd, hst⟩ := loadFragments_success env a levels hl h
  obtain ⟨p1, p2, p3⟩ := navigation_nil
    (fun s hs => (loadPhase_not_navigation (hd.inv.phase s hs)).1)
  obtain ⟨q1, q2, q3⟩ := navigation_uiSteps st levels
  rw [hst]
  simp only [plans_append, buttons_append, handlers_append, p1, p2, p3, q1, q2, q3,
    List.nil_append]
  exact ⟨trivial, trivial, trivial⟩

/-- C6: a successful `loadFragments` over `n` levels appends `n + 1` buttons:
one per level, in the order of `levelsProperties` and labelled with the level's
`Name.value`, then one labelled `Exit`. -/
theorem loadFragments_buttons (env : Env) (a : Archive) (levels : List LevelProps)
    (hl : a.levelsProperties = .parsed (some (levels.map LevelEntry.level)))
    (h : (loadFragments env a).error = none) :
    buttons (loadFragments env a).state.steps = levels.map (fun l => l.Name) ++ ["Exit"] ∧
    (buttons (loadFragments env a).state.steps).length = levels.length + 1 := by
  have hb := (navigation_success env a levels hl h).2.1
  refine ⟨hb, ?_⟩
  rw [hb]
  simp

/-- C6 applies to the sample archive: buttons `Ground`, `First`, `Exit`. -/
theorem loadFragments_buttons_witness :
    sampleArchive.levelsProperties
      = .parsed (some (List.map LevelEntry.level
          [⟨100, "Ground", .finite 0 0⟩, ⟨200, "First", .finite 3 0⟩])) ∧
    (loadFragments sampleEnv sampleArchive).error = none ∧
    buttons (loadFragments sampleEnv sampleArchive).state.steps
      = ["Ground", "First", "Exit"] :=
  ⟨rfl, by decide,
   (loadFragments_buttons sampleEnv sampleArchive
      [⟨100, "Ground", .finite 0 0⟩, ⟨200, "First", .finite 3 0⟩] rfl (by decide)).1⟩

/-! ## Clicks -/

theorem mem_sceneAdd (o e : Object3D) (cs : List Object3D) :
    e ∈ sceneAdd o cs ↔ e = o ∨ e ∈ cs := by
  simp only [sceneAdd, List.mem_append, List.mem_filter, List.mem_singleton,
    decide_eq_true_eq]
  constructor
  · rintro (⟨h, _⟩ | h)
    · exact Or.inr h
    · exact Or.inl h
  · rintro (h | h)
    · exact Or.inr h
    · by_cases he : e = o
      · exact Or.inr he
      · exact Or.inl ⟨h, he⟩

theorem mem_sceneRemove (o e : Object3D) (cs : List Object3D) :
    e ∈ sceneRemove o cs ↔ e ∈ cs ∧ e ≠ o := by
  simp [sceneRemove, List.mem_filter]

theorem toggleEdges_spec (bg : Option Nat) (visible : Bool) (l : List Object3D) :
    ∀ v : View,
      (toggleEdges ⟨l, bg⟩ visible v).calls
        = v.calls ++ l.map (fun e => if visible then Call.sceneAdd e
                                      else Call.removeFromParent e) ∧
      (toggleEdges ⟨l, bg⟩ visible v).wasFloorplanActive = v.wasFloorplanActive ∧
      (toggleEdges ⟨l, bg⟩ visible v).background = v.background ∧
      (∀ e, e ∈ (toggleEdges ⟨l, bg⟩ visible v).children ↔
        if visible then e ∈ l ∨ e ∈ v.children else e ∈ v.children ∧ e ∉ l) := by
  induction l with
  | nil =>
    intro v
    cases visible <;> simp [toggleEdges]
  | cons o rest ih =>
    intro v
    cases visible
    · have hstep : toggleEdges ⟨o :: rest, bg⟩ false v
          = toggleEdges ⟨rest, bg⟩ false
              { wasFloorplanActive := v.wasFloorplanActive, background := v.background,
                children := sceneRemove o v.children,
                calls := v.calls ++ [.removeFromParent o] } := rfl
      rw [hstep]
      obtain ⟨h1, h2, h3, h4⟩ := ih
        { wasFloorplanActive := v.wasFloorplanActive, background := v.background,
          children := sceneRemove o v.children, calls := v.calls ++ [.removeFromParent o] }
      simp only [Bool.false_eq_true, if_false] at h1 h2 h3 h4 ⊢
      refine ⟨by rw [h1]; simp, h2, h3, ?_⟩
      intro e
      rw [h4 e, mem_sceneRemove]
      simp only [List.mem_cons, not_or]
      tauto
    · have hstep : toggleEdges ⟨o :: rest, bg⟩ true v
          = toggleEdges ⟨rest, bg⟩ true
              { wasFloorplanActive := v.wasFloorplanActive, background := v.background,
                children := sceneAdd o v.children,
                calls := v.calls ++ [.sceneAdd o] } := rfl
      rw [hstep]
      obtain ⟨h1, h2, h3, h4⟩ := ih
        { wasFloorplanActive := v.wasFloorplanActive, background := v.background,
          children := sceneAdd o v.children, calls := v.calls ++ [.sceneAdd o] }
      simp only [if_true] at h1 h2 h3 h4 ⊢
      refine ⟨by rw [h1]; simp, h2, h3, ?_⟩
      intro e
      rw [h4 e, mem_sceneAdd]
      simp only [List.mem_cons]
      tauto

theorem levelOnclick_spec (page : Page) (lp : LevelProps) (v : View) :
    (levelOnclick page lp v).calls
      = v.calls ++ (if v.wasFloorplanActive then [] else page.edgesList.map Call.sceneAdd)
          ++ [.materialsApply, .goTo lp.expressID, .setNeedsUpdate true,
              .updateVisibility] ∧
    (levelOnclick page lp v).wasFloorplanActive = true ∧
    (levelOnclick page lp v).background
      = (if v.wasFloorplanActive then v.background else whiteColor) ∧
    (∀ e, e ∈ (levelOnclick page lp v).children ↔
      if v.wasFloorplanActive then e ∈ v.children
      else e ∈ page.edgesList ∨ e ∈ v.children) := by
  obtain ⟨h1, _, _, h4⟩ := toggleEdges_spec page.backgroundColor true page.edgesList v
  cases ha : v.wasFloorplanActive
  · simp only [levelOnclick, ha, Bool.not_false, if_true, View.call, Bool.false_eq_true,
      if_false]
    refine ⟨?_, trivial, trivial, ?_⟩
    · rw [h1]; simp
    · intro e
      simpa using h4 e
  · simp [levelOnclick, ha, View.call]

theorem exitOnclick_spec (page : Page) (v : View) :
    (exitOnclick page v).calls
      = v.calls ++ [.materialsReset, .exitPlanView, .setNeedsUpdate true, .updateVisibility]
          ++ page.edgesList.map Call.removeFromParent ∧
    (exitOnclick page v).wasFloorplanActive = false ∧
    (exitOnclick page v).background = page.backgroundColor ∧
    (∀ e, e ∈ (exitOnclick page v).children ↔ e ∈ v.children ∧ e ∉ page.edgesList) := by
  obtain ⟨h1, h2, _, h4⟩ := toggleEdges_spec page.backgroundColor false page.edgesList
    { wasFloorplanActive := false, background := v.background, children := v.children,
      calls := v.calls ++ [.materialsReset, .exitPlanView, .setNeedsUpdate true,
        .updateVisibility] }
  simp only [Bool.false_eq_true, if_false] at h1 h4
  simp only [exitOnclick, View.call, List.append_assoc, List.singleton_append,
    List.cons_append, List.nil_append] at h1 h2 h4 ⊢
  exact ⟨h1, h2, trivial, h4⟩

/-- C5: after a successful load the buttons and their handlers are, in order,
one pair per level, the level's name with the closure over that same level, and
last `Exit` with the exit closure; the plan of a level has the level's
`expressID` as id; a click on a level's button, once the edges are shown if
they were not, applies the base material, calls `goTo` with that level's
`expressID`, then sets `needsUpdate` to true, then calls `updateVisibility`; a
click on Exit resets the materials, calls `exitPlanView`, then sets
`needsUpdate` to true, then calls `updateVisibility`, and then hides the
edges. -/
theorem click_navigates (env : Env) (a : Archive) (levels : List LevelProps)
    (hl : a.levelsProperties = .parsed (some (levels.map LevelEntry.level)))
    (h : (loadFragments env a).error = none) :
    (buttons (loadFragments env a).state.steps).zip
        (handlers (loadFragments env a).state.steps)
      = levels.map (fun l => (l.Name, Handler.level l)) ++ [("Exit", Handler.exit)] ∧
    plans (loadFragments env a).state.steps = levels.map planConfig ∧
    (∀ l : LevelProps, (planConfig l).id = l.expressID) ∧
    (∀ (page : Page) (v : View) (l : LevelProps),
      (click page v (.level l)).calls
        = v.calls ++ (if v.wasFloorplanActive then [] else page.edgesList.map Call.sceneAdd)
            ++ [.materialsApply, .goTo l.expressID, .setNeedsUpdate true,
                .updateVisibility]) ∧
    (∀ (page : Page) (v : View),
      (click page v .exit).calls
        = v.calls ++ [.materialsReset, .exitPlanView, .setNeedsUpdate true,
                      .updateVisibility]
            ++ page.edgesList.map Call.removeFromParent) := by
  obtain ⟨h1, h2, h3⟩ := navigation_success env a levels hl h
  refine ⟨?_, h1, fun _ => rfl, fun page v l => (levelOnclick_spec page l v).1,
    fun page v => (exitOnclick_spec page v).1⟩
  rw [h2, h3, List.zip_append (by simp), List.zip_map']
  rfl

/-- C5 applies to the sample archive. -/
theorem click_navigates_witness :
    sampleArchive.levelsProperties
      = .parsed (some (List.map LevelEntry.level
          [⟨100, "Ground", .finite 0 0⟩, ⟨200, "First", .finite 3 0⟩])) ∧
    (loadFragments sampleEnv sampleArchive).error = none ∧
    plans (loadFragments sampleEnv sampleArchive).state.steps
      = [planConfig ⟨100, "Ground", .finite 0 0⟩, planConfig ⟨200, "First", .finite 3 0⟩] :=
  ⟨rfl, by decide,
   (click_navigates sampleEnv sampleArchive
      [⟨100, "Ground", .finite 0 0⟩, ⟨200, "First", .finite 3 0⟩] rfl (by decide)).2.1⟩

theorem ViewInv.click {page : Page} {v : View} (hv : ViewInv page v) (hd : Handler) :
    ViewInv page (FragmentPlans.click page v hd) ∧
    ((FragmentPlans.click page v hd).wasFloorplanActive = true ↔ ∃ l, hd = .level l) := by
  cases hd with
  | level l =>
    obtain ⟨_, h2, h3, h4⟩ := levelOnclick_spec page l v
    refine ⟨⟨?_, ?_⟩, ?_⟩
    · intro e he
      simp only [FragmentPlans.click, h2, iff_true]
      rw [h4 e]
      cases ha : v.wasFloorplanActive
      · simpa using Or.inl he
      · simpa using (hv.edges e he).mpr ha
    · simp only [FragmentPlans.click, h2, h3, if_true]
      cases ha : v.wasFloorplanActive
      · simp
      · simpa [ha] using hv.background
    · simp [FragmentPlans.click, h2]
  | exit =>
    obtain ⟨_, h2, h3, h4⟩ := exitOnclick_spec page v
    refine ⟨⟨?_, ?_⟩, ?_⟩
    · intro e he
      simp only [FragmentPlans.click, h2, Bool.false_eq_true, iff_false]
      rw [h4 e]
      exact fun hx => hx.2 he
    · simp [FragmentPlans.click, h2, h3]
    · simp [FragmentPlans.click, h2]

theorem ViewInv.clicks {page : Page} (hs : List Handler) :
    ∀ v : View, ViewInv page v →
      ViewInv page (FragmentPlans.clicks page v hs) ∧
      ((FragmentPlans.clicks page v hs).wasFloorplanActive = true ↔
        (∃ l, hs.getLast? = some (.level l)) ∨ (hs = [] ∧ v.wasFloorplanActive = true)) := by
  induction hs with
  | nil =>
    intro v hv
    exact ⟨hv, by simp [FragmentPlans.clicks]⟩
  | cons hd rest ih =>
    intro v hv
    obtain ⟨c1, c2⟩ := hv.click hd
    obtain ⟨i1, i2⟩ := ih (FragmentPlans.click page v hd) c1
    have hstep : FragmentPlans.clicks page v (hd :: rest)
        = FragmentPlans.clicks page (FragmentPlans.click page v hd) rest := rfl
    rw [hstep]
    refine ⟨i1, ?_⟩
    rw [i2, c2]
    cases rest with
    | nil => simp
    | cons r rs => simp [List.getLast?_cons_cons]

/-- C9: after a successful load and any sequence of clicks, each handled to
the end before the next, `wasFloorplanActive` is true exactly when the last
click was on a level button (false when there was no click), every edge of
`edgesList` is in the scene exactly when it is true, and the background is
white when it is true and the one captured at load time when it is false; so
after a level click and then Exit the background is the captured one and no
edge is in the scene. -/
theorem clicks_invariant (env : Env) (a : Archive) (clicked : List Handler)
    (h : (loadFragments env a).error = none) :
    ((clicks (pageAfter env (loadFragments env a).state)
        (viewAfter env (loadFragments env a).state) clicked).wasFloorplanActive = true ↔
      ∃ l, clicked.getLast? = some (.level l)) ∧
    (∀ e ∈ (loadFragments env a).state.edgesList,
      (e ∈ (clicks (pageAfter env (loadFragments env a).state)
          (viewAfter env (loadFragments env a).state) clicked).children ↔
        (clicks (pageAfter env (loadFragments env a).state)
          (viewAfter env (loadFragments env a).state) clicked).wasFloorplanActive = true)) ∧
    (clicks (pageAfter env (loadFragments env a).state)
        (viewAfter env (loadFragments env a).state) clicked).background
      = (if (clicks (pageAfter env (loadFragments env a).state)
            (viewAfter env (loadFragments env a).state) clicked).wasFloorplanActive
         then some 0xffffff else env.background) ∧
    (∀ l : LevelProps,
      (clicks (pageAfter env (loadFragments env a).state)
        (viewAfter env (loadFragments env a).state)
        (clicked ++ [.level l, .exit])).background = env.background ∧
      ∀ e ∈ (loadFragments env a).state.edgesList,
        e ∉ (clicks (pageAfter env (loadFragments env a).state)
          (viewAfter env (loadFragments env a).state)
          (clicked ++ [.level l, .exit])).children) := by
  have hinit : ViewInv (pageAfter env (loadFragments env a).state)
      (viewAfter env (loadFragments env a).state) := by
    rcases loadFragments_shape env a with ⟨h1, _⟩ | ⟨mt, at_, st, levels, U, hd, _, hst, _⟩
    · exact absurd h h1
    · rw [hst]
      refine ⟨?_, by simp [viewAfter, pageAfter]⟩
      intro e he
      simp only [pageAfter] at he
      simpa [viewAfter] using hd.inv.edges e he
  have key : ∀ cs : List Handler,
      ViewInv (pageAfter env (loadFragments env a).state)
        (clicks (pageAfter env (loadFragments env a).state)
          (viewAfter env (loadFragments env a).state) cs) ∧
      ((clicks (pageAfter env (loadFragments env a).state)
          (viewAfter env (loadFragments env a).state) cs).wasFloorplanActive = true ↔
        ∃ l, cs.getLast? = some (.level l)) := by
    intro cs
    obtain ⟨k1, k2⟩ := ViewInv.clicks cs _ hinit
    refine ⟨k1, ?_⟩
    rw [k2]
    simp [viewAfter]
  obtain ⟨k1, k2⟩ := key clicked
  refine ⟨k2, k1.edges, k1.background, ?_⟩
  intro l
  obtain ⟨j1, j2⟩ := key (clicked ++ [.level l, .exit])
  have hoff : (clicks (pageAfter env (loadFragments env a).state)
      (viewAfter env (loadFragments env a).state)
      (clicked ++ [.level l, .exit])).wasFloorplanActive = false := by
    rw [← Bool.not_eq_true, j2]
    simp [List.getLast?_append]
  refine ⟨?_, ?_⟩
  · rw [j1.background, hoff]
    rfl
  · intro e he
    rw [j1.edges e he, hoff]
    simp

/-- C9 applies to the sample archive: after `Ground` then `Exit` the
floor-plan mode is off. -/
theorem clicks_invariant_witness :
    (loadFragments sampleEnv sampleArchive).error = none ∧
    ((clicks (pageAfter sampleEnv (loadFragments sampleEnv sampleArchive).state)
        (viewAfter sampleEnv (loadFragments sampleEnv sampleArchive).state)
        [.level ⟨100, "Ground", .finite 0 0⟩, .exit]).wasFloorplanActive = true ↔
      ∃ l, [Handler.level ⟨100, "Ground", .finite 0 0⟩, Handler.exit].getLast?
        = some (.level l)) :=
  ⟨by decide,
   (clicks_invariant sampleEnv sampleArchive [.level ⟨100, "Ground", .finite 0 0⟩, .exit]
      (by decide)).1⟩

/-! ## Order of the steps -/

theorem append_eq_split {α : Type} {A B pre post : List α} {x : α}
    (h : A ++ B = pre ++ x :: post) (hx : x ∉ A) :
    ∃ pre', pre = A ++ pre' ∧ B = pre' ++ x :: post := by
  induction A generalizing pre with
  | nil => exact ⟨pre, rfl, h⟩
  | cons a A ih =>
    cases pre with
    | nil =>
      simp only [List.cons_append, List.nil_append, List.cons.injEq] at h
      exact absurd (h.1 ▸ List.mem_cons_self _ _) hx
    | cons p pre =>
      simp only [List.cons_append, List.cons.injEq] at h
      obtain ⟨pre', h1, h2⟩ := ih h.2 (fun hm => hx (List.mem_cons_of_mem _ hm))
      exact ⟨pre', by rw [h.1, h1]; rfl, h2⟩

theorem levelsSteps_onclick (l : LevelProps) (T : List Step)
    (hT : Step.onclick (.level l) ∉ T) :
    ∀ (levels : List LevelProps) (pre post : List Step),
      levelsSteps levels ++ T = pre ++ Step.onclick (.level l) :: post →
      ∃ pre', pre = pre' ++ [.create (planConfig l), .appendChild l.Name] := by
  intro levels
  induction levels with
  | nil =>
    intro pre post h
    simp only [levelsSteps, List.nil_append] at h
    exact absurd (h ▸ List.mem_append_right _ (List.mem_cons_self _ _)) hT
  | cons l0 rest ih =>
    intro pre post h
    have h' : [Step.create (planConfig l0), Step.appendChild l0.Name]
        ++ (Step.onclick (.level l0) :: (levelsSteps rest ++ T))
        = pre ++ Step.onclick (.level l) :: post := by
      rw [← h]
      simp [levelsSteps, levelSteps]
    obtain ⟨p1, hp1, hp2⟩ := append_eq_split h' (by simp)
    cases p1 with
    | nil =>
      simp only [List.nil_append, List.cons.injEq, Step.onclick.injEq,
        Handler.level.injEq] at hp2
      rw [hp1, ← hp2.1]
      exact ⟨[], by simp⟩
    | cons q p1 =>
      simp only [List.cons_append, List.cons.injEq] at hp2
      obtain ⟨pre', hpre'⟩ := ih p1 post hp2.2
      refine ⟨[Step.create (planConfig l0), Step.appendChild l0.Name,
        Step.onclick (.level l0)] ++ pre', ?_⟩
      rw [hp1, hpre', ← hp2.1]
      simp

theorem style_tailSteps (levels : List LevelProps) :
    ∀ s ∈ tailSteps levels, s.style = false := by
  intro s hs
  simp only [tailSteps, exitSteps, List.mem_append, List.mem_cons, List.mem_singleton,
    List.not_mem_nil, or_false] at hs
  rcases hs with (rfl | hs) | rfl | rfl
  · rfl
  · induction levels with
    | nil => simp [levelsSteps] at hs
    | cons l rest ih =>
      simp only [levelsSteps, levelSteps, List.mem_append, List.mem_cons,
        List.mem_singleton, List.not_mem_nil, or_false] at hs
      rcases hs with (rfl | rfl | rfl) | hs
      · rfl
      · rfl
      · rfl
      · exact ih hs
  · rfl
  · rfl

/-- C8: in every run, when a clipping style is created every name containing
`.glb` has had its fragment loaded and every loaded mesh has been pushed to a
list, and no fragment is loaded or pushed afterwards; the styles are named
`thick` and `thin` and the `thick` one is created before the `thin` one; when a
handler is installed both styles have been created; and the handler of a level
is installed right after that level's plan has been created and its button
appended. -/
theorem loadFragments_order (env : Env) (a : Archive) :
    (∀ pre post name items mat,
      (loadFragments env a).state.steps
          = pre ++ Step.newStyleFromMesh name items mat :: post →
        (loads pre).map (fun x => x.1)
          = a.fileNames.filter (fun name => includes name ".glb") ∧
        (∀ x ∈ loads pre, Step.pushThick x.2.2 ∈ pre ∨ Step.pushThin x.2.2 ∈ pre) ∧
        (∀ s ∈ post, s.classifies = false)) ∧
    (∀ name items mat,
      Step.newStyleFromMesh name items mat ∈ (loadFragments env a).state.steps →
        name = "thick" ∨ name = "thin") ∧
    (∀ pre post items mat,
      (loadFragments env a).state.steps
          = pre ++ Step.newStyleFromMesh "thin" items mat :: post →
        ∃ items' mat', Step.newStyleFromMesh "thick" items' mat' ∈ pre) ∧
    (∀ pre post hd,
      (loadFragments env a).state.steps = pre ++ Step.onclick hd :: post →
        (∃ items mat, Step.newStyleFromMesh "thick" items mat ∈ pre) ∧
        (∃ items mat, Step.newStyleFromMesh "thin" items mat ∈ pre)) ∧
    (∀ pre post l,
      (loadFragments env a).state.steps = pre ++ Step.onclick (.level l) :: post →
        ∃ pre', pre = pre' ++ [.create (planConfig l), .appendChild l.Name]) := by
  rcases loadFragments_shape env a with ⟨_, hinv⟩ | ⟨mt, at_, st, levels, U, hd, hU, hst, _⟩
  · have hno : ∀ s ∈ (loadFragments env a).state.steps,
        s.style = false ∧ s.navigation = false :=
      fun s hs => ⟨(loadPhase_not_navigation (hinv.phase s hs)).2,
        (loadPhase_not_navigation (hinv.phase s hs)).1⟩
    refine ⟨?_, ?_, ?_, ?_, ?_⟩
    · intro pre post name items mat h
      have := (hno (Step.newStyleFromMesh name items mat) (by rw [h]; simp)).1
      simp [Step.style] at this
    · intro name items mat h
      have := (hno _ h).1
      simp [Step.style] at this
    · intro pre post items mat h
      have := (hno (Step.newStyleFromMesh "thin" items mat) (by rw [h]; simp)).1
      simp [Step.style] at this
    · intro pre post hd' h
      have := (hno (Step.onclick hd') (by rw [h]; simp)).2
      simp [Step.navigation] at this
    · intro pre post l h
      have := (hno (Step.onclick (.level l)) (by rw [h]; simp)).2
      simp [Step.navigation] at this
  · have hsteps : (loadFragments env a).state.steps = st.steps ++ (styleSteps st ++ U) := by
      rw [hst]
      simp
    obtain ⟨rest, hrest⟩ := hU
    have hideal : ∀ pre x post, (loadFragments env a).state.steps = pre ++ x :: post →
        st.steps ++ (styleSteps st ++ tailSteps levels) = pre ++ x :: (post ++ rest) := by
      intro pre x post h
      rw [← hrest, ← List.append_assoc (styleSteps st), ← List.append_assoc st.steps,
        ← hsteps, h]
      simp
    have hLstyle : ∀ s ∈ st.steps, s.style = false ∧ s.navigation = false :=
      fun s hs => ⟨(loadPhase_not_navigation (hd.inv.phase s hs)).2,
        (loadPhase_not_navigation (hd.inv.phase s hs)).1⟩
    have hUc : ∀ s ∈ U, s.classifies = false := fun s hs =>
      classifies_tailSteps levels s (by rw [← hrest]; exact List.mem_append_left _ hs)
    have hUs : ∀ s ∈ U, s.style = false := fun s hs =>
      style_tailSteps levels s (by rw [← hrest]; exact List.mem_append_left _ hs)
    refine ⟨?_, ?_, ?_, ?_, ?_⟩
    · intro pre post name items mat h
      rw [hsteps] at h
      obtain ⟨pre', hp1, hp2⟩ := append_eq_split h (fun hm => by
        have := (hLstyle _ hm).1
        simp [Step.style] at this)
      have hsub : ∀ s, s ∈ pre' ∨ s ∈ post → s.classifies = false := by
        intro s hs
        have hm : s ∈ styleSteps st ++ U := by
          rw [hp2]
          rcases hs with hs | hs
          · exact List.mem_append_left _ hs
          · exact List.mem_append_right _ (List.mem_cons_of_mem _ hs)
        rcases List.mem_append.mp hm with hm | hm
        · exact classifies_styleSteps st s hm
        · exact hUc s hm
      have hl : loads pre = loads st.steps := by
        rw [hp1, loads_append, loads_eq_nil (fun s hs => hsub s (Or.inl hs))]
        simp
      refine ⟨by rw [hl]; exact hd.names, ?_, fun s hs => hsub s (Or.inr hs)⟩
      intro x hx
      rw [hl] at hx
      have hlt : x.2.2 < st.loaded := by
        have : x.2.2 ∈ (loads st.steps).map (fun x => x.2.2) := List.mem_map_of_mem _ hx
        rw [hd.inv.ids] at this
        exact List.mem_range.mp this
      rw [hp1]
      rcases hd.inv.pushes _ hlt with h1 | h1
      · exact Or.inl (List.mem_append_left _ h1)
      · exact Or.inr (List.mem_append_left _ h1)
    · intro name items mat h
      rw [hsteps] at h
      rcases List.mem_append.mp h with h | h
      · have := (hLstyle _ h).1
        simp [Step.style] at this
      · rcases List.mem_append.mp h with h | h
        · simp only [styleSteps, List.mem_cons, List.mem_singleton, List.not_mem_nil,
            or_false] at h
          rcases h with h | h | h
          · cases h
          · cases h; exact Or.inl rfl
          · cases h; exact Or.inr rfl
        · have := hUs _ h
          simp [Step.style] at this
    · intro pre post items mat h
      have h' : (st.steps ++ [Step.initClippingEdges,
            Step.newStyleFromMesh "thick" st.thickItems thickMaterial])
          ++ ([Step.newStyleFromMesh "thin" st.thinItems thinMaterial] ++ U)
          = pre ++ Step.newStyleFromMesh "thin" items mat :: post := by
        rw [← h, hsteps]
        simp [styleSteps]
      obtain ⟨pre', hp1, _⟩ := append_eq_split h' (fun hm => by
        rcases List.mem_append.mp hm with hm | hm
        · have := (hLstyle _ hm).1
          simp [Step.style] at this
        · simp only [List.mem_cons, List.mem_singleton, List.not_mem_nil, or_false] at hm
          rcases hm with hm | hm
          · cases hm
          · simp only [Step.newStyleFromMesh.injEq] at hm
            exact absurd hm.1 (by decide))
      exact ⟨st.thickItems, thickMaterial, by rw [hp1]; simp⟩
    · intro pre post hd' h
      have h' : (st.steps ++ styleSteps st) ++ U = pre ++ Step.onclick hd' :: post := by
        rw [← h, hsteps]
        simp
      obtain ⟨pre', hp1, _⟩ := append_eq_split h' (fun hm => by
        rcases List.mem_append.mp hm with hm | hm
        · have := (hLstyle _ hm).2
          simp [Step.navigation] at this
        · simp [styleSteps] at hm)
      exact ⟨⟨st.thickItems, thickMaterial, by rw [hp1]; simp [styleSteps]⟩,
        ⟨st.thinItems, thinMaterial, by rw [hp1]; simp [styleSteps]⟩⟩
    · intro pre post l h
      have h' : (st.steps ++ styleSteps st ++ [Step.json "levels-properties.json"])
          ++ (levelsSteps levels ++ exitSteps)
          = pre ++ Step.onclick (.level l) :: (post ++ rest) := by
        rw [← hideal pre _ post h]
        simp [tailSteps]
      obtain ⟨pre', hp1, hp2⟩ := append_eq_split h' (fun hm => by
        rcases List.mem_append.mp hm with hm | hm
        · rcases List.mem_append.mp hm with hm | hm
          · have := (hLstyle _ hm).2
            simp [Step.navigation] at this
          · simp [styleSteps] at hm
        · simp at hm)
      obtain ⟨q, hq⟩ := levelsSteps_onclick l exitSteps (by simp [exitSteps]) levels pre'
        (post ++ rest) hp2
      exact ⟨st.steps ++ styleSteps st ++ [Step.json "levels-properties.json"] ++ q, by
        rw [hp1, hq]; simp⟩

/-! ## Addition of numbers -/

theorem bitLengthAux_zero (fuel : Nat) : bitLengthAux fuel 0 = 0 := by
  cases fuel <;> simp [bitLengthAux]

theorem bitLengthAux_lower (fuel : Nat) :
    ∀ n, n ≤ fuel → n ≠ 0 → 2 ^ (bitLengthAux fuel n - 1) ≤ n ∧ 1 ≤ bitLengthAux fuel n := by
  induction fuel with
  | zero => intro n h h0; omega
  | succ fuel ih =>
    intro n h h0
    simp only [bitLengthAux, h0, if_false]
    refine ⟨?_, by omega⟩
    simp only [Nat.add_sub_cancel]
    by_cases h2 : n / 2 = 0
    · rw [h2, bitLengthAux_zero]
      simp
      omega
    · obtain ⟨h3, h4⟩ := ih (n / 2) (by omega) h2
      have e : bitLengthAux fuel (n / 2) = (bitLengthAux fuel (n / 2) - 1) + 1 := by omega
      rw [e, pow_succ]
      omega

theorem bitLength_le {n t : Nat} (h : n < 2 ^ t) : bitLength n ≤ t := by
  by_cases h0 : n = 0
  · subst h0
    simp [bitLength, bitLengthAux_zero]
  · obtain ⟨h1, h2⟩ := bitLengthAux_lower n n (le_refl _) h0
    by_contra hlt
    have hle : t ≤ bitLength n - 1 := by
      unfold bitLength at hlt ⊢
      omega
    have := Nat.pow_le_pow_right (n := 2) (by norm_num) hle
    unfold bitLength at this
    omega

theorem roundShift_error (M : Int) (k : Nat) :
    -(2 ^ k : Int) ≤ 2 * (roundShift M k * 2 ^ k - M) ∧
    2 * (roundShift M k * 2 ^ k - M) ≤ (2 ^ k : Int) := by
  have hP : (0 : Int) < 2 ^ k := by positivity
  have hM : (2 ^ k : Int) * (M / 2 ^ k) + M % 2 ^ k = M := Int.ediv_add_emod M (2 ^ k)
  have hr0 : 0 ≤ M % (2 ^ k : Int) := Int.emod_nonneg _ (ne_of_gt hP)
  have hr1 : M % (2 ^ k : Int) < 2 ^ k := Int.emod_lt_of_pos _ hP
  unfold roundShift
  simp only
  split
  · constructor <;> nlinarith
  · split
    · constructor <;> nlinarith
    · split
      · constructor <;> nlinarith
      · constructor <;> nlinarith

theorem roundShift_natAbs_lt (M : Int) (k N : Nat) (hk : k ≤ N)
    (h : M.natAbs < 2 ^ (53 + N)) : (roundShift M k).natAbs < 2 ^ (54 + N - k) := by
  obtain ⟨h1, h2⟩ := roundShift_error M k
  have hP : (0 : Int) < 2 ^ k := by positivity
  have hB : |M| < (2 : Int) ^ (53 + N) := by
    have : ((M.natAbs : Nat) : Int) < ((2 ^ (53 + N) : Nat) : Int) := by exact_mod_cast h
    simpa [Int.natCast_natAbs] using this
  have hkN : (2 : Int) ^ k ≤ 2 ^ (53 + N) :=
    pow_le_pow_right₀ (by norm_num) (by omega)
  have hsplit : (2 : Int) ^ (54 + N) = 2 ^ (54 + N - k) * 2 ^ k := by
    rw [← pow_add]
    congr 1
    omega
  have hdouble : (2 : Int) ^ (54 + N) = 2 * 2 ^ (53 + N) := by
    rw [← pow_succ']
    congr 1
    omega
  have hA : |roundShift M k| * 2 ^ k < 2 ^ (54 + N - k) * 2 ^ k := by
    rw [← hsplit, hdouble]
    have e : |roundShift M k| * 2 ^ k = |roundShift M k * 2 ^ k| := by
      rw [abs_mul, abs_of_pos hP]
    rw [e]
    have hM := abs_lt.mp hB
    rw [abs_lt]
    constructor <;> nlinarith
  have hlt : |roundShift M k| < (2 : Int) ^ (54 + N - k) := lt_of_mul_lt_mul_right hA hP.le
  have : ((roundShift M k).natAbs : Int) < ((2 ^ (54 + N - k) : Nat) : Int) := by
    simpa [Int.natCast_natAbs] using hlt
  exact_mod_cast this

theorem roundDouble_near (M : Int) (N : Nat) (h : M.natAbs < 2 ^ (53 + N)) :
    ∃ M' E', roundDouble M (-(N : Int)) = .finite M' E' ∧
      |(M' : ℚ) * (2 : ℚ) ^ E' - (M : ℚ) / 2 ^ N| ≤ 1 / 2 := by
  have hbl : bitLength M.natAbs ≤ 53 + N := bitLength_le h
  have hk : max (bitLength M.natAbs - 53) (-1074 - -(N : Int)).toNat ≤ N := by
    apply max_le <;> omega
  generalize hkdef : max (bitLength M.natAbs - 53) (-1074 - -(N : Int)).toNat = k at hk
  have hlt := roundShift_natAbs_lt M k N hk h
  have hbl' : bitLength (roundShift M k).natAbs ≤ 54 + N - k := bitLength_le hlt
  refine ⟨roundShift M k, -(N : Int) + k, ?_, ?_⟩
  · unfold roundDouble
    simp only [hkdef]
    rw [if_neg]
    omega
  · obtain ⟨h1, h2⟩ := roundShift_error M k
    have hpow : (2 : ℚ) ^ (-(N : Int) + (k : Int)) = 2 ^ k / 2 ^ N := by
      rw [zpow_add₀ (by norm_num), zpow_neg, zpow_natCast, zpow_natCast]
      field_simp
    have hN : (0 : ℚ) < 2 ^ N := by positivity
    have hkN : (2 : ℚ) ^ k ≤ 2 ^ N := pow_le_pow_right₀ (by norm_num) hk
    have q1 : -(2 ^ k : ℚ) ≤ 2 * ((roundShift M k : ℚ) * 2 ^ k - M) := by exact_mod_cast h1
    have q2 : 2 * ((roundShift M k : ℚ) * 2 ^ k - M) ≤ (2 ^ k : ℚ) := by exact_mod_cast h2
    have e : (roundShift M k : ℚ) * (2 ^ k / 2 ^ N) - (M : ℚ) / 2 ^ N
        = ((roundShift M k : ℚ) * 2 ^ k - M) / 2 ^ N := by
      field_simp
    rw [hpow, e, abs_le]
    constructor
    · rw [le_div_iff₀ hN]
      nlinarith
    · rw [div_le_iff₀ hN]
      nlinarith

theorem val_align (m e E : Int) (h : E ≤ e) :
    ((m * 2 ^ (e - E).toNat : Int) : ℚ) * (2 : ℚ) ^ E = (m : ℚ) * (2 : ℚ) ^ e := by
  have h1 : ((e - E).toNat : Int) = e - E := Int.toNat_of_nonneg (by omega)
  have h2 : (2 : ℚ) ^ (e - E).toNat = (2 : ℚ) ^ (e - E) := by
    rw [← zpow_natCast, h1]
  push_cast
  rw [h2, mul_assoc, ← zpow_add₀ (by norm_num : (2 : ℚ) ≠ 0)]
  congr 2
  omega

theorem lt_finite_iff (m₁ e₁ m₂ e₂ : Int) :
    JSNumber.lt (.finite m₁ e₁) (.finite m₂ e₂) = true ↔
      (m₁ : ℚ) * (2 : ℚ) ^ e₁ < (m₂ : ℚ) * (2 : ℚ) ^ e₂ := by
  have hpos : (0 : ℚ) < (2 : ℚ) ^ (min e₁ e₂) := by positivity
  rw [← val_align m₁ e₁ (min e₁ e₂) (min_le_left _ _),
    ← val_align m₂ e₂ (min e₁ e₂) (min_le_right _ _)]
  simp only [JSNumber.lt, decide_eq_true_eq]
  rw [mul_lt_mul_right hpos]
  exact Int.cast_lt.symm

theorem add_levelOffset_near (m e : Int) (hlo : -(2 ^ 52 : ℚ) < (m : ℚ) * (2 : ℚ) ^ e)
    (hhi : (m : ℚ) * (2 : ℚ) ^ e < 2 ^ 52) :
    ∃ M' E', (JSNumber.finite m e).add levelOffset = .finite M' E' ∧
      |(M' : ℚ) * (2 : ℚ) ^ E' - ((m : ℚ) * (2 : ℚ) ^ e + 3 / 2)| ≤ 1 / 2 := by
  obtain ⟨N, hN⟩ : ∃ N : Nat, min e (-1) = -(N : Int) :=
    ⟨(-(min e (-1))).toNat, by omega⟩
  have hadd : (JSNumber.finite m e).add levelOffset
      = roundDouble (m * 2 ^ (e - -(N : Int)).toNat + 3 * 2 ^ (-1 - -(N : Int)).toNat)
          (-(N : Int)) := by
    simp only [JSNumber.add, levelOffset, hN]
  have hpN : (0 : ℚ) < 2 ^ N := by positivity
  have hzN : (2 : ℚ) ^ (-(N : Int)) = (2 ^ N)⁻¹ := by
    rw [zpow_neg, zpow_natCast]
  have hval : ((m * 2 ^ (e - -(N : Int)).toNat + 3 * 2 ^ (-1 - -(N : Int)).toNat : Int) : ℚ)
      / 2 ^ N = (m : ℚ) * (2 : ℚ) ^ e + 3 / 2 := by
    have a1 := val_align m e (-(N : Int)) (by omega)
    have a2 := val_align 3 (-1) (-(N : Int)) (by omega)
    rw [hzN] at a1 a2
    rw [div_eq_mul_inv]
    push_cast at a1 a2 ⊢
    rw [add_mul, a1, a2]
    norm_num
  have hbound : (m * 2 ^ (e - -(N : Int)).toNat + 3 * 2 ^ (-1 - -(N : Int)).toNat).natAbs
      < 2 ^ (53 + N) := by
    generalize m * 2 ^ (e - -(N : Int)).toNat + 3 * 2 ^ (-1 - -(N : Int)).toNat = M at hval ⊢
    have hq : |(M : ℚ)| < 2 ^ (53 + N) := by
      have hM : (M : ℚ) = ((m : ℚ) * (2 : ℚ) ^ e + 3 / 2) * 2 ^ N := by
        rw [← hval]
        field_simp
      rw [hM, pow_add, abs_mul, abs_of_pos hpN]
      apply mul_lt_mul_of_pos_right _ hpN
      rw [abs_lt]
      constructor <;> norm_num <;> linarith
    have hz : |M| < (2 : Int) ^ (53 + N) := by exact_mod_cast hq
    have : ((M.natAbs : Nat) : Int) < ((2 ^ (53 + N) : Nat) : Int) := by
      simpa [Int.natCast_natAbs] using hz
    exact_mod_cast this
  obtain ⟨M', E', h1, h2⟩ := roundDouble_near _ N hbound
  rw [hval] at h2
  exact ⟨M', E', by rw [hadd, h1], h2⟩

/-- Above an elevation of magnitude below `2 ^ 52` the sum with `1.5` is
finite, within `0.5` of the exact sum, and greater than the elevation. -/
theorem add_levelOffset_gt (m e : Int)
    (hlo : JSNumber.lt (.finite (-(2 ^ 52)) 0) (.finite m e) = true)
    (hhi : JSNumber.lt (.finite m e) (.finite (2 ^ 52) 0) = true) :
    JSNumber.lt (.finite m e) ((JSNumber.finite m e).add levelOffset) = true ∧
    ((JSNumber.finite m e).add levelOffset).isFinite = true ∧
    |((JSNumber.finite m e).add levelOffset).toRat
        - ((JSNumber.finite m e).toRat + 3 / 2)| ≤ 1 / 2 := by
  rw [lt_finite_iff] at hlo hhi
  have hlo' : -(2 ^ 52 : ℚ) < (m : ℚ) * (2 : ℚ) ^ e := by
    have := hlo
    push_cast at this
    simpa using this
  have hhi' : (m : ℚ) * (2 : ℚ) ^ e < 2 ^ 52 := by
    have := hhi
    push_cast at this
    simpa using this
  obtain ⟨M', E', h1, h2⟩ := add_levelOffset_near m e hlo' hhi'
  rw [h1]
  refine ⟨?_, rfl, h2⟩
  rw [lt_finite_iff]
  have := (abs_le.mp h2).1
  linarith

set_option maxRecDepth 20000 in
/-- C7, as stated, fails twice: with `model-types.json` missing no plan is
created for the level of the archive; and in a successful load of a level of
elevation `2 ^ 54` the cut height is `2 ^ 52 * 2 ^ 2`, the elevation itself,
not above it. -/
theorem loadFragments_plans_counterexample :
    (missingTableArchive.levelsProperties
        = .parsed (some [.level ⟨100, "Ground", .finite 0 0⟩]) ∧
      plans (loadFragments sampleEnv missingTableArchive).state.steps = []) ∧
    ((loadFragments sampleEnv highLevelArchive).error = none ∧
      (plans (loadFragments sampleEnv highLevelArchive).state.steps).map (fun c => c.point)
        = [⟨.finite 0 0, .finite 4503599627370496 2, .finite 0 0⟩] ∧
      JSNumber.lt (.finite 18014398509481984 0) (.finite 4503599627370496 2) = false ∧
      (18014398509481984 : Int) * 2 ^ 0 = 4503599627370496 * 2 ^ 2) := by
  decide

/-- C7, amended: a run of `loadFragments` that succeeds creates, in the order
of the levels, exactly one plan per level; the plan of a level has as id the
level's `expressID`, `ortho` true, rotation 0, as name the level's
`Name.value`, normal `(0, -1, 0)` and cut point
`(0, Elevation.value + 1.5, 0)`, the sum being the binary64 one; for an
elevation of magnitude below `2 ^ 52` that cut height is finite, within `0.5`
of the exact sum and strictly above the elevation. -/
theorem loadFragments_plans (env : Env) (a : Archive) (levels : List LevelProps)
    (hl : a.levelsProperties = .parsed (some (levels.map LevelEntry.level)))
    (h : (loadFragments env a).error = none) :
    plans (loadFragments env a).state.steps = levels.map planConfig ∧
    (plans (loadFragments env a).state.steps).length = levels.length ∧
    ∀ l : LevelProps,
      (planConfig l).id = l.expressID ∧
      (planConfig l).ortho = true ∧
      (planConfig l).rotation = .finite 0 0 ∧
      (planConfig l).name = l.Name ∧
      (planConfig l).normal = ⟨.finite 0 0, .finite (-1) 0, .finite 0 0⟩ ∧
      (planConfig l).point = ⟨.finite 0 0, l.Elevation.add (.finite 3 (-1)), .finite 0 0⟩ ∧
      (∀ m e : Int, l.Elevation = .finite m e →
        JSNumber.lt (.finite (-(2 ^ 52)) 0) (.finite m e) = true →
        JSNumber.lt (.finite m e) (.finite (2 ^ 52) 0) = true →
        JSNumber.lt l.Elevation (planConfig l).point.y = true ∧
        (planConfig l).point.y.isFinite = true ∧
        |(planConfig l).point.y.toRat - (l.Elevation.toRat + 3 / 2)| ≤ 1 / 2) := by
  have hp := (navigation_success env a levels hl h).1
  refine ⟨hp, by rw [hp]; simp, ?_⟩
  intro l
  refine ⟨rfl, rfl, rfl, rfl, rfl, rfl, ?_⟩
  intro m e he hlo hhi
  simp only [planConfig, he]
  exact add_levelOffset_gt m e hlo hhi

/-- The amended C7 applies to the sample archive. -/
theorem loadFragments_plans_witness :
    sampleArchive.levelsProperties
      = .parsed (some (List.map LevelEntry.level
          [⟨100, "Ground", .finite 0 0⟩, ⟨200, "First", .finite 3 0⟩])) ∧
    (loadFragments sampleEnv sampleArchive).error = none ∧
    (plans (loadFragments sampleEnv sampleArchive).state.steps).length = 2 :=
  ⟨rfl, by decide,
   (loadFragments_plans sampleEnv sampleArchive
      [⟨100, "Ground", .finite 0 0⟩, ⟨200, "First", .finite 3 0⟩] rfl (by decide)).2.1⟩

/-- C8 applies to the sample archive: the `thin` style comes after the
`thick` one. -/
theorem loadFragments_order_witness :
    ∃ items' mat', Step.newStyleFromMesh "thick" items' mat'
      ∈ (loadFragments sampleEnv sampleArchive).state.steps.take 18 :=
  (loadFragments_order sampleEnv sampleArchive).2.2.1
    ((loadFragments sampleEnv sampleArchive).state.steps.take 18)
    ((loadFragments sampleEnv sampleArchive).state.steps.drop 19) [1] thinMaterial
    (by decide)

end FragmentPlans
